import Mathlib

/-! ChainBridge, `chains/substrate/types.go`

A shallow embedding of the substrate writer's proposal builders, of
`proposal.encode` and of the `voteStatus` and `BridgeEvent` decoders, followed by
the properties proved about them.

Go values are embedded as follows.

* `byte` is `Fin 256`; `[]byte` is `List Byte`; `[32]byte` is a list of length 32.
* `uint8` / `uint64` message fields are natural numbers: the source only
  re-labels them (`types.U8(m.Source)`, `types.U64(m.Nonce)`), never computes
  with them.
* A Go call returns a value, returns an `error`, or panics: `Res`.
* The collaborators the builders call into (`w.resolveResourceId`,
  `w.conn.getMetadata`, `types.NewCall`, `types.EncodeToBytes`) are fields of
  `writer` and `types`, and the nested `decoder.Decode(&item)` of
  `BridgeEvent.Decode` is a field of `scale`, so every general theorem holds for
  all of them.
* A `Decode` call leaves behind its receiver, the decoder, and an `error` or a
  panic: `Decoded`.
-/

namespace Substrate

/-! ## Go runtime values -/

/-- A Go `byte`. -/
abbrev Byte := Fin 256

/-- A Go `[32]byte` (`msg.ResourceId`, `types.Bytes32`, `types.Hash`,
`types.AccountID`). -/
abbrev Bytes32 := { l : List Byte // l.length = 32 }

/-- A Go `error` value; the builders and decoders only pass errors on. -/
structure Error where
  msg : String
  deriving DecidableEq, Repr

/-- A Go run-time panic: the two the source can raise by itself, and any other
raised inside a collaborator. -/
inductive Panic where
  /-- Raised by `xs[i]` when `i ≥ len(xs)`. -/
  | indexOutOfRange (index len : Nat)
  /-- Raised by `v.([]byte)` when the dynamic type of `v` is not `[]byte`. -/
  | interfaceConversion
  /-- Raised inside a collaborator. -/
  | other (what : String)
  deriving DecidableEq, Repr

/-- Outcome of a Go call of result type `(α, error)`. -/
inductive Res (α : Type) where
  | ok (a : α)
  | err (e : Error)
  | panic (p : Panic)
  deriving DecidableEq, Repr

/-- Sequencing of Go calls: an error or a panic ends the function. -/
def Res.bind {α β : Type} (x : Res α) (f : α → Res β) : Res β :=
  match x with
  | .ok a => f a
  | .err e => .err e
  | .panic p => .panic p

instance : Monad Res where
  pure := Res.ok
  bind := Res.bind

/-- A Go `interface{}` value, as held in `msg.Message.Payload`. -/
inductive Value where
  /-- Dynamic type `[]byte`. -/
  | bytes (b : List Byte)
  /-- The nil interface. -/
  | nil
  /-- Any other dynamic type, named for the record. -/
  | other (typeName : String)
  deriving DecidableEq, Repr

/-- Go `xs[i]` on a slice. -/
def index (xs : List Value) (i : Nat) : Res Value :=
  match xs[i]? with
  | some v => .ok v
  | none => .panic (.indexOutOfRange i xs.length)

/-- Go `v.([]byte)`, the single-result type assertion. -/
def assertBytes (v : Value) : Res (List Byte) :=
  match v with
  | .bytes b => .ok b
  | _ => .panic .interfaceConversion

/-- Go `big.NewInt(0).SetBytes(b)`: `b` read as a big-endian unsigned integer. -/
def SetBytes (b : List Byte) : Nat :=
  b.foldl (fun acc x => acc * 256 + x.val) 0

/-- Go `copy(a[:], b)` into a zeroed `[32]byte`: the first 32 bytes of `b`,
padded with zeros on the right. -/
def copy32 (b : List Byte) : Bytes32 :=
  ⟨b.take 32 ++ List.replicate (32 - b.length) 0, by
    simp only [List.length_append, List.length_take, List.length_replicate]; omega⟩

/-! ## The message and the library types the builders use -/

/-- The `msg.Message` fields the source reads. -/
structure Message where
  /-- `msg.ChainId`, a `uint8`. -/
  Source : Nat
  /-- `msg.Nonce`, a `uint64`. -/
  Nonce : Nat
  /-- `msg.ResourceId`, a `[32]byte`. -/
  ResourceId : Bytes32
  Payload : List Value
  deriving DecidableEq

/-- The `types.CallIndex` of a call. -/
structure CallIndex where
  SectionIndex : Nat
  MethodIndex : Nat
  deriving DecidableEq, Repr

/-- The `types.Call`: a call index and the encoded argument bytes. -/
structure Call where
  callIndex : CallIndex
  Args : List Byte
  deriving DecidableEq

/-- The typed values the builders hand to `types.NewCall`. -/
inductive Arg where
  | AccountID (a : Bytes32)
  | U128 (i : Nat)
  | U256 (i : Nat)
  | Bytes (b : List Byte)
  | Hash (h : Bytes32)
  deriving DecidableEq

/-- Modelled from the spec: `types.NewAccountID` is library code outside src/.
An account id is a 32-byte identifier (spec §3); the source uses the conversion
as a total, single-result function, so it is the copy into a zeroed `[32]byte`. -/
def NewAccountID (b : List Byte) : Bytes32 := copy32 b

/-- Modelled from the spec: `types.NewHash` is library code outside src/.
A hash is a 32-byte value (spec §4.3); the source uses the conversion as a
total, single-result function, so it is the copy into a zeroed `[32]byte`. -/
def NewHash (b : List Byte) : Bytes32 := copy32 b

/-- Modelled from the spec: the chain metadata of the Metadata Provider (§6),
which the call encoder searches for the call index of a method name. -/
structure Metadata where
  calls : List (String × CallIndex)
  deriving DecidableEq

/-- Modelled from the spec: the Call Encoder collaborator of §6, library code
outside src/: `new_call(method_name, ...typed_args)` and `encode(value)`, the
latter used on the resource id only. -/
structure types where
  NewCall : Metadata → String → List Arg → Res Call
  EncodeToBytes : Bytes32 → Res (List Byte)

/-- The `writer` fields and methods the builders use; `resolveResourceId` and
`conn.getMetadata` are defined outside src/ and are taken as given. -/
structure writer where
  getMetadata : Metadata
  resolveResourceId : Bytes32 → Res String
  extendCall : Bool

/-! ## `voteStatus` -/

/-- Modelled from the spec: the `scale.Decoder` of the codec library, outside
src/, as the bytes it has not read yet. -/
structure Decoder where
  reader : List Byte
  deriving DecidableEq, Repr

/-- Modelled from the spec: `decoder.ReadOneByte()` reads exactly one byte and
fails when fewer than one byte remains (§4.1). -/
def Decoder.ReadOneByte (d : Decoder) : Except Error Byte × Decoder :=
  match d.reader with
  | [] => (.error ⟨"EOF"⟩, d)
  | b :: rest => (.ok b, ⟨rest⟩)

structure voteStatus where
  IsActive : Bool := false
  IsApproved : Bool := false
  IsRejected : Bool := false
  deriving DecidableEq, Repr

/-- What a `Decode` call leaves behind: the receiver, the decoder, the returned
`error` (`none` for `nil`) and the panic it raised, if any (`none` when it
returned). A call that panics returns nothing, so its `err` is `none`. -/
structure Decoded (α : Type) where
  recv : α
  decoder : Decoder
  err : Option Error
  panic : Option Panic
  deriving DecidableEq

def voteStatus.Decode (m : voteStatus) (decoder : Decoder) : Decoded voteStatus :=
  match decoder.ReadOneByte with
  | (.error err, decoder) => ⟨m, decoder, some err, none⟩
  | (.ok b, decoder) =>
    if b = 0 then
      ⟨{ m with IsActive := true }, decoder, none, none⟩
    else if b = 1 then
      ⟨{ m with IsApproved := true }, decoder, none, none⟩
    else if b = 2 then
      ⟨{ m with IsRejected := true }, decoder, none, none⟩
    else
      ⟨m, decoder, none, none⟩

/-! ## `proposal` and its builders -/

/-- The on-chain proposal. -/
structure proposal where
  depositNonce : Nat
  call : Call
  sourceId : Nat
  resourceId : Bytes32
  method : String
  deriving DecidableEq

def createFungibleProposal (T : types) (w : writer) (m : Message) : Res proposal := do
  let p0 ← index m.Payload 0
  let b0 ← assertBytes p0
  let bigAmt := SetBytes b0
  let amount := Arg.U128 bigAmt
  let p1 ← index m.Payload 1
  let b1 ← assertBytes p1
  let recipient := Arg.AccountID (NewAccountID b1)
  let depositNonce := m.Nonce
  let meta := w.getMetadata
  let method ← w.resolveResourceId m.ResourceId
  let call ← T.NewCall meta method [recipient, amount]
  let call ←
    if w.extendCall then do
      let eRID ← T.EncodeToBytes m.ResourceId
      pure { call with Args := call.Args ++ eRID }
    else pure call
  pure { depositNonce := depositNonce, call := call, sourceId := m.Source,
         resourceId := m.ResourceId, method := method }

def createNonFungibleProposal (T : types) (w : writer) (m : Message) : Res proposal := do
  let p0 ← index m.Payload 0
  let b0 ← assertBytes p0
  let tokenId := Arg.U256 (SetBytes b0)
  let p1 ← index m.Payload 1
  let b1 ← assertBytes p1
  let recipient := Arg.AccountID (NewAccountID b1)
  let p2 ← index m.Payload 2
  let b2 ← assertBytes p2
  let metadata := Arg.Bytes b2
  let depositNonce := m.Nonce
  let meta := w.getMetadata
  let method ← w.resolveResourceId m.ResourceId
  let call ← T.NewCall meta method [recipient, tokenId, metadata]
  let call ←
    if w.extendCall then do
      let eRID ← T.EncodeToBytes m.ResourceId
      pure { call with Args := call.Args ++ eRID }
    else pure call
  pure { depositNonce := depositNonce, call := call, sourceId := m.Source,
         resourceId := m.ResourceId, method := method }

def createGenericProposal (T : types) (w : writer) (m : Message) : Res proposal := do
  let meta := w.getMetadata
  let method ← w.resolveResourceId m.ResourceId
  let p0 ← index m.Payload 0
  let b0 ← assertBytes p0
  let call ← T.NewCall meta method [Arg.Hash (NewHash b0)]
  let call ←
    if w.extendCall then do
      let eRID ← T.EncodeToBytes m.ResourceId
      pure { call with Args := call.Args ++ eRID }
    else pure call
  pure { depositNonce := m.Nonce, call := call, sourceId := m.Source,
         resourceId := m.ResourceId, method := method }

/-! ## The codec of the library, for concrete runs

The general theorems below hold for every `types` and `writer`. The concrete
runs use this instance, which follows the SCALE codec of the client library. -/

/-- Modelled from the spec: `Metadata.FindCallIndex`, library code outside src/,
by which the call encoder finds the call index registered for a method name;
an unlisted name is an error (§4.3 step 3). -/
def FindCallIndex (m : Metadata) (call : String) : Res CallIndex :=
  match m.calls.lookup call with
  | some c => .ok c
  | none => .err ⟨"method not found in metadata"⟩

/-- The `len` low-order bytes of `i`, least significant first. -/
def uintLE : Nat → Nat → List Byte
  | 0, _ => []
  | len + 1, i => ⟨i % 256, Nat.mod_lt _ (by decide)⟩ :: uintLE len (i / 256)

/-- Modelled from the spec: `types.BigIntToUintBytes`, library code outside
src/: the big-endian `bytelen`-byte form of an unsigned integer (§3). The library
compares `i` with `2^(8*bytelen)` and returns an error when `i` is larger; at
equality its copy into the result slices out of bounds. -/
def BigIntToUintBytes (i : Nat) (bytelen : Nat) : Res (List Byte) :=
  if i > 256 ^ bytelen then .err ⟨"cannot encode big.Int to []byte: given big.Int exceeds highest number"⟩
  else if i = 256 ^ bytelen then .panic (.other "slice bounds out of range")
  else .ok (uintLE bytelen i).reverse

/-- Modelled from the spec: `scale.Encoder.EncodeUintCompact`, library code
outside src/: the length prefix of a variable-length field (§4.2), in the
compact form of the SCALE codec. -/
def EncodeUintCompact (n : Nat) : List Byte :=
  if n < 2 ^ 6 then uintLE 1 (n * 4)
  else if n < 2 ^ 14 then uintLE 2 (n * 4 + 1)
  else if n < 2 ^ 30 then uintLE 4 (n * 4 + 2)
  else
    let numBytes := Nat.log 256 n + 1
    uintLE 1 ((numBytes - 4) * 4 + 3) ++ uintLE numBytes n

/-- Modelled from the spec: the library's encoding of a byte slice, outside
src/: a variable-length field is length-prefixed (§4.2); the library refuses a
slice of more than `2^32 - 1` elements. -/
def encodeBytes (b : List Byte) : Res (List Byte) :=
  if b.length > 2 ^ 32 - 1 then
    .err ⟨"Attempted to serialize a collection with too many elements."⟩
  else .ok (EncodeUintCompact b.length ++ b)

/-- Modelled from the spec: `types.EncodeToBytes`, library code outside src/,
on the values the builders pass (§6 `encode(value) -> bytes`): fixed 32-byte
values are written as they are, unsigned integers little-endian at their
width, byte strings length-prefixed. -/
def encodeArg : Arg → Res (List Byte)
  | .AccountID a => .ok a.val
  | .Hash h => .ok h.val
  | .U128 i => do
    let b ← BigIntToUintBytes i 16
    pure b.reverse
  | .U256 i => do
    let b ← BigIntToUintBytes i 32
    pure b.reverse
  | .Bytes b => encodeBytes b

/-- The loop of `types.NewCall`: the encodings of the arguments, appended in order. -/
def encodeArgs : List Arg → List Byte → Res (List Byte)
  | [], a => .ok a
  | arg :: rest, a => do
    let e ← encodeArg arg
    encodeArgs rest (a ++ e)

/-- Modelled from the spec: `types.NewCall`, library code outside src/: the
call index of the method, then the encoded arguments in order (§4.3 step 3,
§6 `new_call`). -/
def scaleNewCall (m : Metadata) (call : String) (args : List Arg) : Res Call := do
  let c ← FindCallIndex m call
  let a ← encodeArgs args []
  pure ⟨c, a⟩

/-- Modelled from the spec: the library's codec as a `types` value; a resource
id, a `[32]byte`, is encoded as its 32 bytes. -/
def scaleTypes : types where
  NewCall := scaleNewCall
  EncodeToBytes := fun rid => .ok rid.val

/-- Modelled from the spec: decoding a 32-byte account id, the next 32 bytes. -/
def decodeAccountID (bs : List Byte) : Option (List Byte × List Byte) :=
  if 32 ≤ bs.length then some (bs.take 32, bs.drop 32) else none

/-- Modelled from the spec: decoding a `U128`, the next 16 bytes read
little-endian. -/
def decodeU128 (bs : List Byte) : Option (Nat × List Byte) :=
  if 16 ≤ bs.length then some (SetBytes (bs.take 16).reverse, bs.drop 16) else none

/-! ## Transfer items and `BridgeEvent` -/

/-- The zero value of a `[32]byte`. -/
def zero32 : Bytes32 := ⟨List.replicate 32 0, by simp⟩

/-- The fungible item. `Amount` is a `types.U256`, a pointer to a big integer:
`none` is the nil pointer of the zero value. -/
structure FungibleTransferItem where
  Destination : Nat := 0
  DepositNonce : Nat := 0
  ResourceId : Bytes32 := zero32
  Amount : Option Nat := none
  Recipient : List Byte := []
  deriving DecidableEq

structure NonFungibleTransferItem where
  Destination : Nat := 0
  DepositNonce : Nat := 0
  ResourceId : Bytes32 := zero32
  TokenId : List Byte := []
  Recipient : List Byte := []
  Metadata : List Byte := []
  deriving DecidableEq

structure GenericTransferItem where
  Destination : Nat := 0
  DepositNonce : Nat := 0
  ResourceId : Bytes32 := zero32
  Metadata : List Byte := []
  deriving DecidableEq

structure BridgeEvent where
  IsFungible : Bool := false
  FungibleTransfer : FungibleTransferItem := {}
  IsNonFungible : Bool := false
  NonFungibleTransfer : NonFungibleTransferItem := {}
  IsGeneric : Bool := false
  GenericTransfer : GenericTransferItem := {}
  deriving DecidableEq

/-- Modelled from the spec: the generic `decoder.Decode(&target)` of the codec
library, outside src/, on the three item types (§4.2): from the target and the
decoder, what the call leaves behind, whether it returned or panicked. -/
structure scale where
  DecodeFungible : FungibleTransferItem → Decoder → Decoded FungibleTransferItem
  DecodeNonFungible : NonFungibleTransferItem → Decoder → Decoded NonFungibleTransferItem
  DecodeGeneric : GenericTransferItem → Decoder → Decoded GenericTransferItem

def BridgeEvent.Decode (S : scale) (m : BridgeEvent) (decoder : Decoder) : Decoded BridgeEvent :=
  match decoder.ReadOneByte with
  | (.error err, decoder) => ⟨m, decoder, some err, none⟩
  | (.ok b, decoder) =>
    if b = 0 then
      let m := { m with IsFungible := true }
      let r := S.DecodeFungible {} decoder
      match r.err with
      | some err => ⟨m, r.decoder, some err, none⟩
      | none =>
        match r.panic with
        | some p => ⟨m, r.decoder, none, some p⟩
        | none => ⟨{ m with FungibleTransfer := r.recv }, r.decoder, none, none⟩
    else if b = 1 then
      let m := { m with IsNonFungible := true }
      let r := S.DecodeNonFungible {} decoder
      match r.err with
      | some err => ⟨m, r.decoder, some err, none⟩
      | none =>
        match r.panic with
        | some p => ⟨m, r.decoder, none, some p⟩
        | none => ⟨{ m with NonFungibleTransfer := r.recv }, r.decoder, none, none⟩
    else if b = 2 then
      let m := { m with IsGeneric := true }
      let r := S.DecodeGeneric {} decoder
      match r.err with
      | some err => ⟨m, r.decoder, some err, none⟩
      | none =>
        match r.panic with
        | some p => ⟨m, r.decoder, none, some p⟩
        | none => ⟨{ m with GenericTransfer := r.recv }, r.decoder, none, none⟩
    else
      ⟨m, decoder, none, none⟩

/-! ## `voteState` -/

structure voteState where
  VotesFor : List Bytes32 := []
  VotesAgainst : List Bytes32 := []
  Status : voteStatus := {}
  deriving DecidableEq

/-! ## `proposal.encode` -/

/-- The two fields of the anonymous struct that `proposal.encode` encodes. -/
inductive Field where
  | U64 (n : Nat)
  | Call (c : Call)
  deriving DecidableEq

/-- Modelled from the spec: `types.EncodeToBytes` on a struct, library code
outside src/: the encodings of the fields, in order. A `U64` is 8 bytes
little-endian; a `Call` is the two bytes of its index and then its argument
bytes as they are. -/
def encodeFields : List Field → List Byte
  | [] => []
  | .U64 n :: rest => uintLE 8 n ++ encodeFields rest
  | .Call c :: rest =>
    uintLE 1 c.callIndex.SectionIndex ++ uintLE 1 c.callIndex.MethodIndex ++ c.Args
      ++ encodeFields rest

/-- The encoding of nonce and call for storage queries. -/
def proposal.encode (p : proposal) : Res (List Byte) :=
  .ok (encodeFields [.U64 p.depositNonce, .Call p.call])

/-! ## The decoding side of the library codec -/

/-- A decoding step: from the decoder, a value, an error or a panic, and the
decoder after the step. -/
abbrev Dec (α : Type) := Decoder → Res α × Decoder

/-- Modelled from the spec: `decoder.Read(buf)` of the library, outside src/:
exactly `n` bytes, or an error when the stream ends first (§4.2). -/
def Decoder.Read (n : Nat) : Dec (List Byte) := fun d =>
  if n ≤ d.reader.length then (.ok (d.reader.take n), ⟨d.reader.drop n⟩)
  else (.err ⟨"expected more bytes, but could not decode any more"⟩, ⟨[]⟩)

/-- The value of bytes read least significant first. -/
def leValue (bs : List Byte) : Nat := SetBytes bs.reverse

/-- Modelled from the spec: a fixed-width unsigned integer of `width` bytes,
little-endian (§4.2). -/
def decodeUint (width : Nat) : Dec Nat := fun d =>
  match Decoder.Read width d with
  | (.ok bs, d) => (.ok (leValue bs), d)
  | (.err e, d) => (.err e, d)
  | (.panic p, d) => (.panic p, d)

/-- Modelled from the spec: one byte of a byte sequence. -/
def decodeByte : Dec Byte := fun d =>
  match d.reader with
  | [] => (.err ⟨"expected more bytes, but could not decode any more"⟩, d)
  | b :: rest => (.ok b, ⟨rest⟩)

/-- Modelled from the spec: a 32-byte fixed field (resource id, account id). -/
def decodeBytes32 : Dec Bytes32 := fun d =>
  if h : 32 ≤ d.reader.length then
    (.ok ⟨d.reader.take 32, by simp [List.length_take, h]⟩, ⟨d.reader.drop 32⟩)
  else (.err ⟨"expected more bytes, but could not decode any more"⟩, ⟨[]⟩)

/-- Modelled from the spec: `U256.Decode` of the library, outside src/: 32
bytes, little-endian (§3). -/
def decodeU256 : Dec (Option Nat) := fun d =>
  match Decoder.Read 32 d with
  | (.ok bs, d) => (.ok (some (leValue bs)), d)
  | (.err e, d) => (.err e, d)
  | (.panic p, d) => (.panic p, d)

/-- Modelled from the spec: `decoder.DecodeUintCompact()` of the library, outside
src/, the length prefix of §4.2. The low two bits of the first byte select the
width. The library does not check the read of the first byte: at the end of the
stream it reads as 0. Every further byte of the prefix must be there: a prefix
that is cut short is an error (§4.2). -/
def DecodeUintCompact : Dec Nat := fun d =>
  let (rb, d1) := d.ReadOneByte
  let b : Nat := match rb with
    | .ok b => b.val
    | .error _ => 0
  if b % 4 = 0 then (.ok (b / 4), d1)
  else if b % 4 = 1 then
    match d1.ReadOneByte with
    | (.ok bb, d2) => (.ok (bb.val * 64 + b / 4), d2)
    | (.error e, d2) => (.err e, d2)
  else if b % 4 = 2 then
    match Decoder.Read 3 d1 with
    | (.ok bs, d2) => (.ok ((b + 256 * leValue bs) / 4), d2)
    | (.err e, d2) => (.err e, d2)
    | (.panic p, d2) => (.panic p, d2)
  else
    match Decoder.Read (b / 4 + 4) d1 with
    | (.ok bs, d2) => (.ok (leValue bs), d2)
    | (.err e, d2) => (.err e, d2)
    | (.panic p, d2) => (.panic p, d2)

/-- The elements of a slice or array, one after the other. -/
def decodeN {α : Type} (dec : Dec α) : Nat → Dec (List α)
  | 0 => fun d => (.ok [], d)
  | n + 1 => fun d =>
    match dec d with
    | (.err e, d) => (.err e, d)
    | (.panic p, d) => (.panic p, d)
    | (.ok x, d) =>
      match decodeN dec n d with
      | (.err e, d) => (.err e, d)
      | (.panic p, d) => (.panic p, d)
      | (.ok xs, d) => (.ok (x :: xs), d)

/-- The panic of the library's slice decoding after a failed length read: it
drops the error of `DecodeUintCompact` and dereferences the missing length. -/
def nilLength : Panic := .other "invalid memory address or nil pointer dereference"

/-- Modelled from the spec: the library's decoding of a slice, outside src/:
the compact length, taken as a `uint64` and refused above `2^32 - 1`, then
that many elements (§4.2). A length prefix that cannot be read makes the
library panic. -/
def decodeSlice {α : Type} (dec : Dec α) : Dec (List α) := fun d =>
  match DecodeUintCompact d with
  | (.err _, d) => (.panic nilLength, d)
  | (.panic p, d) => (.panic p, d)
  | (.ok n, d) =>
    if n % 2 ^ 64 > 2 ^ 32 - 1 then
      (.err ⟨"Encoded array length is higher than allowed by the protocol (32-bit unsigned integer)"⟩, d)
    else decodeN dec (n % 2 ^ 64) d

/-- One field of a struct: decode it and store it, or stop at the first error
or panic and leave the field as it was. -/
def Decoded.field {α β : Type} (r : Decoded α) (dec : Dec β) (set : α → β → α) : Decoded α :=
  match r.err, r.panic with
  | none, none =>
    match dec r.decoder with
    | (.ok v, d) => ⟨set r.recv v, d, none, none⟩
    | (.err e, d) => ⟨r.recv, d, some e, none⟩
    | (.panic p, d) => ⟨r.recv, d, none, some p⟩
  | _, _ => r

/-- Modelled from the spec: the library decodes a struct field by field in
declared order (§4.2); here the fields of `FungibleTransferItem`, lines 169-175. -/
def FungibleTransferItem.Decode (t : FungibleTransferItem) (d : Decoder) :
    Decoded FungibleTransferItem :=
  (((((⟨t, d, none, none⟩ : Decoded FungibleTransferItem)
    |>.field (decodeUint 1) (fun t v => { t with Destination := v }))
    |>.field (decodeUint 8) (fun t v => { t with DepositNonce := v }))
    |>.field decodeBytes32 (fun t v => { t with ResourceId := v }))
    |>.field decodeU256 (fun t v => { t with Amount := v }))
    |>.field (decodeSlice decodeByte) (fun t v => { t with Recipient := v })

/-- Modelled from the spec: the fields of `NonFungibleTransferItem` in declared
order, lines 177-184. -/
def NonFungibleTransferItem.Decode (t : NonFungibleTransferItem) (d : Decoder) :
    Decoded NonFungibleTransferItem :=
  ((((((⟨t, d, none, none⟩ : Decoded NonFungibleTransferItem)
    |>.field (decodeUint 1) (fun t v => { t with Destination := v }))
    |>.field (decodeUint 8) (fun t v => { t with DepositNonce := v }))
    |>.field decodeBytes32 (fun t v => { t with ResourceId := v }))
    |>.field (decodeSlice decodeByte) (fun t v => { t with TokenId := v }))
    |>.field (decodeSlice decodeByte) (fun t v => { t with Recipient := v }))
    |>.field (decodeSlice decodeByte) (fun t v => { t with Metadata := v })

/-- Modelled from the spec: the fields of `GenericTransferItem` in declared
order, lines 186-191. -/
def GenericTransferItem.Decode (t : GenericTransferItem) (d : Decoder) :
    Decoded GenericTransferItem :=
  ((((⟨t, d, none, none⟩ : Decoded GenericTransferItem)
    |>.field (decodeUint 1) (fun t v => { t with Destination := v }))
    |>.field (decodeUint 8) (fun t v => { t with DepositNonce := v }))
    |>.field decodeBytes32 (fun t v => { t with ResourceId := v }))
    |>.field (decodeSlice decodeByte) (fun t v => { t with Metadata := v })

/-- The library's `decoder.Decode` on the three item types. -/
def scaleDecode : scale where
  DecodeFungible := FungibleTransferItem.Decode
  DecodeNonFungible := NonFungibleTransferItem.Decode
  DecodeGeneric := GenericTransferItem.Decode

/-- Modelled from the spec: `decode_vote_state` (§4.4, §6), the library's struct
decoding on `voteState`, lines 14-18: the "for" account ids, the "against"
account ids, then the status. The library runs `voteStatus.Decode` on a fresh
zero value and stores it in `Status` only when it returns no error. -/
def decodeVoteState (m : voteState) (d : Decoder) : Decoded voteState :=
  let r := ((⟨m, d, none, none⟩ : Decoded voteState)
    |>.field (decodeSlice decodeBytes32) (fun m v => { m with VotesFor := v }))
    |>.field (decodeSlice decodeBytes32) (fun m v => { m with VotesAgainst := v })
  match r.err, r.panic with
  | none, none =>
    let s := voteStatus.Decode ⟨false, false, false⟩ r.decoder
    match s.err with
    | some e => ⟨r.recv, s.decoder, some e, none⟩
    | none => ⟨{ r.recv with Status := s.recv }, s.decoder, none, none⟩
  | _, _ => r

/-- The elements of a `BridgeEvents` slice. The library runs
`BridgeEvent.Decode` on a fresh zero value for each element and stores it in
the slice only when the call returns no error. -/
def decodeEach (S : scale) : List BridgeEvent → Decoder → Decoded (List BridgeEvent)
  | [], d => ⟨[], d, none, none⟩
  | t :: ts, d =>
    let r := BridgeEvent.Decode S {} d
    match r.err, r.panic with
    | none, none =>
      let rs := decodeEach S ts r.decoder
      ⟨r.recv :: rs.recv, rs.decoder, rs.err, rs.panic⟩
    | e, p => ⟨t :: ts, r.decoder, e, p⟩

/-- Modelled from the spec: `decode_bridge_events` (§6), the library's slice
decoding on a nil `BridgeEvents`, line 194: the compact length, then that many
zero-valued events, each decoded in turn. A length prefix that cannot be read
makes the library panic. -/
def decodeBridgeEvents (S : scale) (d : Decoder) : Decoded (List BridgeEvent) :=
  match DecodeUintCompact d with
  | (.err _, d) => ⟨[], d, none, some nilLength⟩
  | (.panic p, d) => ⟨[], d, none, some p⟩
  | (.ok n, d) =>
    if n % 2 ^ 64 > 2 ^ 32 - 1 then
      ⟨[], d, some ⟨"Encoded array length is higher than allowed by the protocol (32-bit unsigned integer)"⟩, none⟩
    else decodeEach S (List.replicate (n % 2 ^ 64) {}) d

/-! ## The encoding side, for the items -/

/-- Modelled from the spec: `U256.Encode` of the library, outside src/: 32
bytes little-endian; the nil pointer of a zero-valued `U256` cannot be encoded. -/
def encodeU256 : Option Nat → Res (List Byte)
  | none => .panic (.other "invalid memory address or nil pointer dereference")
  | some i => do
    let b ← BigIntToUintBytes i 32
    pure b.reverse

/-- Modelled from the spec: the library encodes a struct field by field in
declared order; here `FungibleTransferItem`. -/
def FungibleTransferItem.encode (t : FungibleTransferItem) : Res (List Byte) := do
  let a ← encodeU256 t.Amount
  let r ← encodeBytes t.Recipient
  pure (uintLE 1 t.Destination ++ uintLE 8 t.DepositNonce ++ t.ResourceId.val ++ a ++ r)

/-- Modelled from the spec: the field-by-field encoding of `NonFungibleTransferItem`. -/
def NonFungibleTransferItem.encode (t : NonFungibleTransferItem) : Res (List Byte) := do
  let k ← encodeBytes t.TokenId
  let r ← encodeBytes t.Recipient
  let md ← encodeBytes t.Metadata
  pure (uintLE 1 t.Destination ++ uintLE 8 t.DepositNonce ++ t.ResourceId.val ++ k ++ r ++ md)

/-- Modelled from the spec: the field-by-field encoding of `GenericTransferItem`. -/
def GenericTransferItem.encode (t : GenericTransferItem) : Res (List Byte) := do
  let md ← encodeBytes t.Metadata
  pure (uintLE 1 t.Destination ++ uintLE 8 t.DepositNonce ++ t.ResourceId.val ++ md)

/-- Modelled from the spec: the encoding of a list of account ids: the compact
length, then the ids, 32 bytes each. -/
def encodeAccountIDs (ids : List Bytes32) : Res (List Byte) :=
  if ids.length > 2 ^ 32 - 1 then
    .err ⟨"Attempted to serialize a collection with too many elements."⟩
  else .ok (EncodeUintCompact ids.length ++ (ids.map Subtype.val).flatten)

/-! ## Concrete inputs -/

/-- A resource id: the byte `b` repeated 32 times. -/
def rid (b : Byte) : Bytes32 := ⟨List.replicate 32 b, by simp⟩

/-- A metadata table with one transfer method. -/
def meta0 : Metadata := ⟨[("Example.transfer", ⟨5, 0⟩)]⟩

/-- A writer that resolves `rid 1` to a method the metadata lists, `rid 3` to
one it does not list, and nothing else. -/
def w0 (ext : Bool) : writer where
  getMetadata := meta0
  resolveResourceId := fun r =>
    if r = rid 1 then .ok "Example.transfer"
    else if r = rid 3 then .ok "Example.remark"
    else .err ⟨"resource not found on chain"⟩
  extendCall := ext

/-- A codec whose resource-id encoding fails. -/
def failingTypes : types where
  NewCall := scaleNewCall
  EncodeToBytes := fun _ => .err ⟨"encode failed"⟩

/-- A fungible message: amount 256, a 32-byte recipient. -/
def msgFungible : Message := ⟨3, 7, rid 1, [.bytes [1, 0], .bytes (List.replicate 32 9)]⟩

/-- A non-fungible message: token id 256, a 32-byte recipient, two metadata bytes. -/
def msgNonFungible : Message :=
  ⟨3, 7, rid 1, [.bytes [1, 0], .bytes (List.replicate 32 9), .bytes [5, 6]]⟩

/-- A generic message with a 32-byte hash. -/
def msgGeneric : Message := ⟨3, 7, rid 1, [.bytes (List.replicate 32 4)]⟩

/-! ## Stepping lemmas -/

@[simp] theorem Res.bind_eq {α β : Type} (x : Res α) (f : α → Res β) :
    (x >>= f) = x.bind f := rfl

@[simp] theorem Res.pure_eq {α : Type} (a : α) : (pure a : Res α) = .ok a := rfl

@[simp] theorem Res.ok_bind {α β : Type} (a : α) (f : α → Res β) :
    (Res.ok a).bind f = f a := rfl

@[simp] theorem Res.err_bind {α β : Type} (e : Error) (f : α → Res β) :
    (Res.err e : Res α).bind f = .err e := rfl

@[simp] theorem Res.panic_bind {α β : Type} (q : Panic) (f : α → Res β) :
    (Res.panic q : Res α).bind f = .panic q := rfl

/-- Reading a payload position that holds bytes. -/
theorem index_assert_bytes {β : Type} {xs : List Value} {i : Nat} {b : List Byte}
    {f : List Byte → Res β} (h : xs[i]? = some (.bytes b)) :
    (index xs i).bind (fun v => (assertBytes v).bind f) = f b := by
  simp [index, assertBytes, h]

/-- A payload position that is absent or does not hold bytes makes the read panic. -/
theorem index_assert_panics {β : Type} {xs : List Value} {i : Nat} (f : List Byte → Res β)
    (h : ∀ b, xs[i]? ≠ some (.bytes b)) :
    (index xs i).bind (fun v => (assertBytes v).bind f) = .panic (.indexOutOfRange i xs.length)
    ∨ (index xs i).bind (fun v => (assertBytes v).bind f) = .panic .interfaceConversion := by
  cases hx : xs[i]? with
  | none => left; simp [index, hx]
  | some v =>
    right
    cases v with
    | bytes b => exact absurd hx (h b)
    | nil => simp [index, assertBytes, hx]
    | other t => simp [index, assertBytes, hx]

/-- A read that does not panic found bytes at the position. -/
theorem index_assert_cases {β : Type} (xs : List Value) (i : Nat) (f : List Byte → Res β) :
    (∃ b, xs[i]? = some (.bytes b) ∧ (index xs i).bind (fun v => (assertBytes v).bind f) = f b)
    ∨ ((∀ b, xs[i]? ≠ some (.bytes b)) ∧
        ∃ q, (index xs i).bind (fun v => (assertBytes v).bind f) = .panic q) := by
  by_cases h : ∃ b, xs[i]? = some (.bytes b)
  · obtain ⟨b, hb⟩ := h
    exact Or.inl ⟨b, hb, index_assert_bytes hb⟩
  · have h' : ∀ b, xs[i]? ≠ some (.bytes b) := fun b hb => h ⟨b, hb⟩
    refine Or.inr ⟨h', ?_⟩
    rcases index_assert_panics f h' with h1 | h1
    · exact ⟨_, h1⟩
    · exact ⟨_, h1⟩

/-- The part the three builders share once the call encoder has answered with
`r`: the optional extension by the encoded resource id, then the wrapping. -/
theorem tail_ok (T : types) (w : writer) (m : Message) (method : String) (r : Res Call)
    (p : proposal)
    (h : r.bind (fun call =>
          if w.extendCall = true then
            (T.EncodeToBytes m.ResourceId).bind fun eRID =>
              Res.ok ⟨m.Nonce, ⟨call.callIndex, call.Args ++ eRID⟩, m.Source, m.ResourceId, method⟩
          else Res.ok ⟨m.Nonce, call, m.Source, m.ResourceId, method⟩) = .ok p) :
    ∃ call, r = .ok call ∧
      ((w.extendCall = false ∧ p = ⟨m.Nonce, call, m.Source, m.ResourceId, method⟩) ∨
       (w.extendCall = true ∧ ∃ eRID, T.EncodeToBytes m.ResourceId = .ok eRID ∧
          p = ⟨m.Nonce, ⟨call.callIndex, call.Args ++ eRID⟩, m.Source, m.ResourceId, method⟩)) := by
  cases r with
  | err e => simp at h
  | panic q => simp at h
  | ok call =>
    refine ⟨call, rfl, ?_⟩
    cases hx : w.extendCall with
    | false =>
      simp only [Res.ok_bind, hx, Bool.false_eq_true, if_false, Res.ok.injEq] at h
      exact Or.inl ⟨rfl, h.symm⟩
    | true =>
      simp only [Res.ok_bind, hx, if_true] at h
      cases he : T.EncodeToBytes m.ResourceId with
      | err e => simp [he] at h
      | panic q => simp [he] at h
      | ok eRID =>
        simp only [he, Res.ok_bind, Res.ok.injEq] at h
        exact Or.inr ⟨rfl, eRID, rfl, h.symm⟩

/-- With well-formed payload positions and a resolved method, the fungible
builder is the call encoder's answer followed by the shared tail. -/
theorem createFungibleProposal_eq (T : types) (w : writer) (m : Message)
    {b0 b1 : List Byte} {method : String}
    (h0 : m.Payload[0]? = some (.bytes b0)) (h1 : m.Payload[1]? = some (.bytes b1))
    (hr : w.resolveResourceId m.ResourceId = .ok method) :
    createFungibleProposal T w m =
      (T.NewCall w.getMetadata method [.AccountID (NewAccountID b1), .U128 (SetBytes b0)]).bind
        fun call =>
          if w.extendCall = true then
            (T.EncodeToBytes m.ResourceId).bind fun eRID =>
              Res.ok ⟨m.Nonce, ⟨call.callIndex, call.Args ++ eRID⟩, m.Source, m.ResourceId, method⟩
          else Res.ok ⟨m.Nonce, call, m.Source, m.ResourceId, method⟩ := by
  simp only [createFungibleProposal, Res.bind_eq, Res.pure_eq, index_assert_bytes h0,
    index_assert_bytes h1, hr, Res.ok_bind]

/-- The non-fungible builder, under the same conditions. -/
theorem createNonFungibleProposal_eq (T : types) (w : writer) (m : Message)
    {b0 b1 b2 : List Byte} {method : String}
    (h0 : m.Payload[0]? = some (.bytes b0)) (h1 : m.Payload[1]? = some (.bytes b1))
    (h2 : m.Payload[2]? = some (.bytes b2))
    (hr : w.resolveResourceId m.ResourceId = .ok method) :
    createNonFungibleProposal T w m =
      (T.NewCall w.getMetadata method
          [.AccountID (NewAccountID b1), .U256 (SetBytes b0), .Bytes b2]).bind
        fun call =>
          if w.extendCall = true then
            (T.EncodeToBytes m.ResourceId).bind fun eRID =>
              Res.ok ⟨m.Nonce, ⟨call.callIndex, call.Args ++ eRID⟩, m.Source, m.ResourceId, method⟩
          else Res.ok ⟨m.Nonce, call, m.Source, m.ResourceId, method⟩ := by
  simp only [createNonFungibleProposal, Res.bind_eq, Res.pure_eq, index_assert_bytes h0,
    index_assert_bytes h1, index_assert_bytes h2, hr, Res.ok_bind]

/-- The generic builder, under the same conditions. -/
theorem createGenericProposal_eq (T : types) (w : writer) (m : Message)
    {b0 : List Byte} {method : String}
    (h0 : m.Payload[0]? = some (.bytes b0))
    (hr : w.resolveResourceId m.ResourceId = .ok method) :
    createGenericProposal T w m =
      (T.NewCall w.getMetadata method [.Hash (NewHash b0)]).bind
        fun call =>
          if w.extendCall = true then
            (T.EncodeToBytes m.ResourceId).bind fun eRID =>
              Res.ok ⟨m.Nonce, ⟨call.callIndex, call.Args ++ eRID⟩, m.Source, m.ResourceId, method⟩
          else Res.ok ⟨m.Nonce, call, m.Source, m.ResourceId, method⟩ := by
  simp only [createGenericProposal, Res.bind_eq, Res.pure_eq, index_assert_bytes h0, hr,
    Res.ok_bind]

/-- A fungible build that succeeds read bytes at positions 0 and 1 and resolved
the resource id. -/
theorem createFungibleProposal_inv {T : types} {w : writer} {m : Message} {p : proposal}
    (h : createFungibleProposal T w m = .ok p) :
    ∃ b0 b1 method, m.Payload[0]? = some (.bytes b0) ∧ m.Payload[1]? = some (.bytes b1) ∧
      w.resolveResourceId m.ResourceId = .ok method := by
  simp only [createFungibleProposal, Res.bind_eq, Res.pure_eq] at h
  rcases index_assert_cases m.Payload 0 _ with ⟨b0, h0, e0⟩ | ⟨_, q, e0⟩
  · rw [e0] at h
    rcases index_assert_cases m.Payload 1 _ with ⟨b1, h1, e1⟩ | ⟨_, q, e1⟩
    · rw [e1] at h
      cases hr : w.resolveResourceId m.ResourceId with
      | ok method => exact ⟨b0, b1, method, h0, h1, rfl⟩
      | err e => simp [hr] at h
      | panic q => simp [hr] at h
    · rw [e1] at h; cases h
  · rw [e0] at h; cases h

/-- A non-fungible build that succeeds read bytes at positions 0, 1 and 2 and
resolved the resource id. -/
theorem createNonFungibleProposal_inv {T : types} {w : writer} {m : Message} {p : proposal}
    (h : createNonFungibleProposal T w m = .ok p) :
    ∃ b0 b1 b2 method, m.Payload[0]? = some (.bytes b0) ∧ m.Payload[1]? = some (.bytes b1) ∧
      m.Payload[2]? = some (.bytes b2) ∧ w.resolveResourceId m.ResourceId = .ok method := by
  simp only [createNonFungibleProposal, Res.bind_eq, Res.pure_eq] at h
  rcases index_assert_cases m.Payload 0 _ with ⟨b0, h0, e0⟩ | ⟨_, q, e0⟩
  · rw [e0] at h
    rcases index_assert_cases m.Payload 1 _ with ⟨b1, h1, e1⟩ | ⟨_, q, e1⟩
    · rw [e1] at h
      rcases index_assert_cases m.Payload 2 _ with ⟨b2, h2, e2⟩ | ⟨_, q, e2⟩
      · rw [e2] at h
        cases hr : w.resolveResourceId m.ResourceId with
        | ok method => exact ⟨b0, b1, b2, method, h0, h1, h2, rfl⟩
        | err e => simp [hr] at h
        | panic q => simp [hr] at h
      · rw [e2] at h; cases h
    · rw [e1] at h; cases h
  · rw [e0] at h; cases h

/-- A generic build that succeeds resolved the resource id and read bytes at
position 0. -/
theorem createGenericProposal_inv {T : types} {w : writer} {m : Message} {p : proposal}
    (h : createGenericProposal T w m = .ok p) :
    ∃ b0 method, m.Payload[0]? = some (.bytes b0) ∧
      w.resolveResourceId m.ResourceId = .ok method := by
  simp only [createGenericProposal, Res.bind_eq, Res.pure_eq] at h
  cases hr : w.resolveResourceId m.ResourceId with
  | err e => simp [hr] at h
  | panic q => simp [hr] at h
  | ok method =>
    rw [hr, Res.ok_bind] at h
    rcases index_assert_cases m.Payload 0 _ with ⟨b0, h0, e0⟩ | ⟨_, q, e0⟩
    · exact ⟨b0, method, h0, rfl⟩
    · rw [e0] at h; cases h

/-! ## The proposal builders -/

/-- C1: a proposal returned by any of the three builders carries the message's
nonce, source and resource id, the method name the resolver returned for the
resource id, and the call the builder constructed: the call encoder's call,
extended by the encoded resource id when `extendCall` is set. -/
theorem proposal_fields (T : types) (w : writer) (m : Message) :
    (∀ p, createFungibleProposal T w m = .ok p →
      p.depositNonce = m.Nonce ∧ p.sourceId = m.Source ∧ p.resourceId = m.ResourceId ∧
      w.resolveResourceId m.ResourceId = .ok p.method ∧
      ∃ b0 b1 call, m.Payload[0]? = some (.bytes b0) ∧ m.Payload[1]? = some (.bytes b1) ∧
        T.NewCall w.getMetadata p.method [.AccountID (NewAccountID b1), .U128 (SetBytes b0)]
          = .ok call ∧
        ((w.extendCall = false ∧ p.call = call) ∨
         (w.extendCall = true ∧ ∃ eRID, T.EncodeToBytes m.ResourceId = .ok eRID ∧
            p.call = ⟨call.callIndex, call.Args ++ eRID⟩))) ∧
    (∀ p, createNonFungibleProposal T w m = .ok p →
      p.depositNonce = m.Nonce ∧ p.sourceId = m.Source ∧ p.resourceId = m.ResourceId ∧
      w.resolveResourceId m.ResourceId = .ok p.method ∧
      ∃ b0 b1 b2 call, m.Payload[0]? = some (.bytes b0) ∧ m.Payload[1]? = some (.bytes b1) ∧
        m.Payload[2]? = some (.bytes b2) ∧
        T.NewCall w.getMetadata p.method
          [.AccountID (NewAccountID b1), .U256 (SetBytes b0), .Bytes b2] = .ok call ∧
        ((w.extendCall = false ∧ p.call = call) ∨
         (w.extendCall = true ∧ ∃ eRID, T.EncodeToBytes m.ResourceId = .ok eRID ∧
            p.call = ⟨call.callIndex, call.Args ++ eRID⟩))) ∧
    (∀ p, createGenericProposal T w m = .ok p →
      p.depositNonce = m.Nonce ∧ p.sourceId = m.Source ∧ p.resourceId = m.ResourceId ∧
      w.resolveResourceId m.ResourceId = .ok p.method ∧
      ∃ b0 call, m.Payload[0]? = some (.bytes b0) ∧
        T.NewCall w.getMetadata p.method [.Hash (NewHash b0)] = .ok call ∧
        ((w.extendCall = false ∧ p.call = call) ∨
         (w.extendCall = true ∧ ∃ eRID, T.EncodeToBytes m.ResourceId = .ok eRID ∧
            p.call = ⟨call.callIndex, call.Args ++ eRID⟩))) := by
  refine ⟨?_, ?_, ?_⟩
  · intro p h
    obtain ⟨b0, b1, method, h0, h1, hr⟩ := createFungibleProposal_inv h
    rw [createFungibleProposal_eq T w m h0 h1 hr] at h
    obtain ⟨call, hc, hp⟩ := tail_ok T w m method _ p h
    rcases hp with ⟨hx, rfl⟩ | ⟨hx, eRID, he, rfl⟩
    · exact ⟨rfl, rfl, rfl, hr, b0, b1, call, h0, h1, hc, Or.inl ⟨hx, rfl⟩⟩
    · exact ⟨rfl, rfl, rfl, hr, b0, b1, call, h0, h1, hc, Or.inr ⟨hx, eRID, he, rfl⟩⟩
  · intro p h
    obtain ⟨b0, b1, b2, method, h0, h1, h2, hr⟩ := createNonFungibleProposal_inv h
    rw [createNonFungibleProposal_eq T w m h0 h1 h2 hr] at h
    obtain ⟨call, hc, hp⟩ := tail_ok T w m method _ p h
    rcases hp with ⟨hx, rfl⟩ | ⟨hx, eRID, he, rfl⟩
    · exact ⟨rfl, rfl, rfl, hr, b0, b1, b2, call, h0, h1, h2, hc, Or.inl ⟨hx, rfl⟩⟩
    · exact ⟨rfl, rfl, rfl, hr, b0, b1, b2, call, h0, h1, h2, hc, Or.inr ⟨hx, eRID, he, rfl⟩⟩
  · intro p h
    obtain ⟨b0, method, h0, hr⟩ := createGenericProposal_inv h
    rw [createGenericProposal_eq T w m h0 hr] at h
    obtain ⟨call, hc, hp⟩ := tail_ok T w m method _ p h
    rcases hp with ⟨hx, rfl⟩ | ⟨hx, eRID, he, rfl⟩
    · exact ⟨rfl, rfl, rfl, hr, b0, call, h0, hc, Or.inl ⟨hx, rfl⟩⟩
    · exact ⟨rfl, rfl, rfl, hr, b0, call, h0, hc, Or.inr ⟨hx, eRID, he, rfl⟩⟩

/-- The three builders succeed on the sample messages, and the proposals carry
the messages' nonce 7, source 3 and resource id. -/
theorem proposal_fields_witness :
    (∃ p, createFungibleProposal scaleTypes (w0 true) msgFungible = .ok p ∧
      p.depositNonce = 7 ∧ p.sourceId = 3 ∧ p.resourceId = rid 1) ∧
    (∃ p, createNonFungibleProposal scaleTypes (w0 false) msgNonFungible = .ok p ∧
      p.depositNonce = 7 ∧ p.sourceId = 3 ∧ p.resourceId = rid 1) ∧
    (∃ p, createGenericProposal scaleTypes (w0 true) msgGeneric = .ok p ∧
      p.depositNonce = 7 ∧ p.sourceId = 3 ∧ p.resourceId = rid 1) := by
  have hF : ∃ p, createFungibleProposal scaleTypes (w0 true) msgFungible = .ok p := ⟨_, rfl⟩
  have hN : ∃ p, createNonFungibleProposal scaleTypes (w0 false) msgNonFungible = .ok p :=
    ⟨_, rfl⟩
  have hG : ∃ p, createGenericProposal scaleTypes (w0 true) msgGeneric = .ok p := ⟨_, rfl⟩
  obtain ⟨pF, hF⟩ := hF
  obtain ⟨pN, hN⟩ := hN
  obtain ⟨pG, hG⟩ := hG
  have tF := (proposal_fields scaleTypes (w0 true) msgFungible).1 pF hF
  have tN := (proposal_fields scaleTypes (w0 false) msgNonFungible).2.1 pN hN
  have tG := (proposal_fields scaleTypes (w0 true) msgGeneric).2.2 pG hG
  exact ⟨⟨pF, hF, tF.1, tF.2.1, tF.2.2.1⟩, ⟨pN, hN, tN.1, tN.2.1, tN.2.2.1⟩,
    ⟨pG, hG, tG.1, tG.2.1, tG.2.2.1⟩⟩

/-- C2, as stated, fails: the resource id `rid 2` is not registered, yet the
fungible and the non-fungible builder, given an empty payload list, panic on
`m.Payload[0]` instead of returning the resolver's error. -/
theorem unresolved_not_whatever_payload :
    (w0 false).resolveResourceId (rid 2) = .err ⟨"resource not found on chain"⟩ ∧
    createFungibleProposal scaleTypes (w0 false) ⟨3, 7, rid 2, []⟩
      = .panic (.indexOutOfRange 0 0) ∧
    createNonFungibleProposal scaleTypes (w0 false) ⟨3, 7, rid 2, []⟩
      = .panic (.indexOutOfRange 0 0) ∧
    createFungibleProposal scaleTypes (w0 false) ⟨3, 7, rid 2, []⟩
      ≠ .err ⟨"resource not found on chain"⟩ := by
  refine ⟨rfl, rfl, rfl, ?_⟩
  intro h
  cases h

/-- C2, amended: when the resolver returns an error for the message's resource
id, the generic builder returns that error whatever the payload list holds; the
fungible builder returns it when payload positions 0 and 1 hold bytes, the
non-fungible builder when positions 0, 1 and 2 hold bytes; with a position
absent or not bytes these two builders panic before the resolver is asked. -/
theorem unresolved_resource (T : types) (w : writer) (m : Message) (e : Error)
    (hr : w.resolveResourceId m.ResourceId = .err e) :
    createGenericProposal T w m = .err e ∧
    ((∃ b0 b1, m.Payload[0]? = some (.bytes b0) ∧ m.Payload[1]? = some (.bytes b1)) →
      createFungibleProposal T w m = .err e) ∧
    ((∃ b0 b1 b2, m.Payload[0]? = some (.bytes b0) ∧ m.Payload[1]? = some (.bytes b1) ∧
        m.Payload[2]? = some (.bytes b2)) →
      createNonFungibleProposal T w m = .err e) ∧
    ((¬ ∃ b0 b1, m.Payload[0]? = some (.bytes b0) ∧ m.Payload[1]? = some (.bytes b1)) →
      ∃ q, createFungibleProposal T w m = .panic q) ∧
    ((¬ ∃ b0 b1 b2, m.Payload[0]? = some (.bytes b0) ∧ m.Payload[1]? = some (.bytes b1) ∧
        m.Payload[2]? = some (.bytes b2)) →
      ∃ q, createNonFungibleProposal T w m = .panic q) := by
  refine ⟨?_, ?_, ?_, ?_, ?_⟩
  · simp only [createGenericProposal, Res.bind_eq, hr, Res.err_bind]
  · rintro ⟨b0, b1, h0, h1⟩
    simp only [createFungibleProposal, Res.bind_eq, index_assert_bytes h0,
      index_assert_bytes h1, hr, Res.err_bind]
  · rintro ⟨b0, b1, b2, h0, h1, h2⟩
    simp only [createNonFungibleProposal, Res.bind_eq, index_assert_bytes h0,
      index_assert_bytes h1, index_assert_bytes h2, hr, Res.err_bind]
  · intro hn
    simp only [createFungibleProposal, Res.bind_eq]
    rcases index_assert_cases m.Payload 0 _ with ⟨b0, h0, e0⟩ | ⟨_, q, e0⟩
    · rw [e0]
      rcases index_assert_cases m.Payload 1 _ with ⟨b1, h1, _⟩ | ⟨_, q, e1⟩
      · exact absurd ⟨b0, b1, h0, h1⟩ hn
      · exact ⟨q, e1⟩
    · exact ⟨q, e0⟩
  · intro hn
    simp only [createNonFungibleProposal, Res.bind_eq]
    rcases index_assert_cases m.Payload 0 _ with ⟨b0, h0, e0⟩ | ⟨_, q, e0⟩
    · rw [e0]
      rcases index_assert_cases m.Payload 1 _ with ⟨b1, h1, e1⟩ | ⟨_, q, e1⟩
      · rw [e1]
        rcases index_assert_cases m.Payload 2 _ with ⟨b2, h2, _⟩ | ⟨_, q, e2⟩
        · exact absurd ⟨b0, b1, b2, h0, h1, h2⟩ hn
        · exact ⟨q, e2⟩
      · exact ⟨q, e1⟩
    · exact ⟨q, e0⟩

/-- With the unregistered resource id `rid 2`: the generic builder returns the
resolver's error on an empty payload, and so do the other two builders on the
payloads of the sample messages. -/
theorem unresolved_resource_witness :
    (w0 true).resolveResourceId (rid 2) = .err ⟨"resource not found on chain"⟩ ∧
    createGenericProposal scaleTypes (w0 true) ⟨3, 7, rid 2, []⟩
      = .err ⟨"resource not found on chain"⟩ ∧
    createFungibleProposal scaleTypes (w0 true) ⟨3, 7, rid 2, msgFungible.Payload⟩
      = .err ⟨"resource not found on chain"⟩ ∧
    createNonFungibleProposal scaleTypes (w0 true) ⟨3, 7, rid 2, msgNonFungible.Payload⟩
      = .err ⟨"resource not found on chain"⟩ :=
  ⟨rfl,
   (unresolved_resource scaleTypes (w0 true) ⟨3, 7, rid 2, []⟩ _ rfl).1,
   (unresolved_resource scaleTypes (w0 true) ⟨3, 7, rid 2, msgFungible.Payload⟩ _ rfl).2.1
     ⟨_, _, rfl, rfl⟩,
   (unresolved_resource scaleTypes (w0 true) ⟨3, 7, rid 2, msgNonFungible.Payload⟩ _ rfl).2.2.1
     ⟨_, _, _, rfl, rfl, rfl⟩⟩

/-- C3, as stated, fails: with a string at payload position 1 (and the resource
id registered) the fungible builder panics on the type assertion; it returns no
error value. -/
theorem malformed_payload_not_error :
    createFungibleProposal scaleTypes (w0 false)
        ⟨3, 7, rid 1, [.bytes [1, 0], .other "string"]⟩ = .panic .interfaceConversion ∧
    ∀ e, createFungibleProposal scaleTypes (w0 false)
        ⟨3, 7, rid 1, [.bytes [1, 0], .other "string"]⟩ ≠ .err e := by
  refine ⟨rfl, ?_⟩
  intro e h
  cases h

/-- C3, amended: whenever payload position 0 or payload position 1 is absent or
holds a value that is not a byte sequence, `createFungibleProposal` panics (index
out of range or failed type assertion): it returns neither an error nor a
proposal. -/
theorem malformed_payload_panics (T : types) (w : writer) (m : Message)
    (h : (∀ b, m.Payload[0]? ≠ some (.bytes b)) ∨ (∀ b, m.Payload[1]? ≠ some (.bytes b))) :
    createFungibleProposal T w m = .panic (.indexOutOfRange 0 m.Payload.length) ∨
    createFungibleProposal T w m = .panic (.indexOutOfRange 1 m.Payload.length) ∨
    createFungibleProposal T w m = .panic .interfaceConversion := by
  simp only [createFungibleProposal, Res.bind_eq]
  rcases index_assert_cases m.Payload 0 _ with ⟨b0, h0, e0⟩ | ⟨hn0, -⟩
  · rw [e0]
    have h1 : ∀ b, m.Payload[1]? ≠ some (.bytes b) := by
      rcases h with h | h
      · exact absurd h0 (h b0)
      · exact h
    rcases index_assert_panics _ h1 with e1 | e1
    · exact Or.inr (Or.inl e1)
    · exact Or.inr (Or.inr e1)
  · rcases index_assert_panics _ hn0 with e0 | e0
    · exact Or.inl e0
    · exact Or.inr (Or.inr e0)

/-- An empty payload list: position 0 is absent, and the fungible builder panics. -/
theorem malformed_payload_panics_witness :
    (⟨3, 7, rid 1, []⟩ : Message).Payload[0]? = none ∧
    (createFungibleProposal scaleTypes (w0 true) ⟨3, 7, rid 1, []⟩
        = .panic (.indexOutOfRange 0 0) ∨
     createFungibleProposal scaleTypes (w0 true) ⟨3, 7, rid 1, []⟩
        = .panic (.indexOutOfRange 1 0) ∨
     createFungibleProposal scaleTypes (w0 true) ⟨3, 7, rid 1, []⟩
        = .panic .interfaceConversion) :=
  ⟨rfl,
   malformed_payload_panics scaleTypes (w0 true) ⟨3, 7, rid 1, []⟩
     (Or.inl (fun _ h => Option.noConfusion h))⟩

/-- C4, as stated, fails: on a two-byte `payload[0]` the generic builder succeeds;
the hash argument is the two bytes followed by thirty zero bytes. -/
theorem short_hash_accepted :
    createGenericProposal scaleTypes (w0 false) ⟨3, 7, rid 1, [.bytes [1, 2]]⟩ =
      .ok ⟨7, ⟨⟨5, 0⟩, [1, 2] ++ List.replicate 30 0⟩, 3, rid 1, "Example.transfer"⟩ ∧
    ([1, 2] : List Byte).length ≠ 32 := by
  refine ⟨rfl, ?_⟩
  decide

/-- C4, amended: `createGenericProposal` makes no length check. For a byte
sequence `payload[0]` of any length the hash argument is `payload[0]` cut or
zero-padded to 32 bytes (unchanged when it has 32 bytes), and the builder
succeeds whenever the resolver, the call encoder and, under `extendCall`, the
resource-id encoding succeed. -/
theorem generic_hash_any_length (T : types) (w : writer) (m : Message) (b0 : List Byte)
    (method : String) (call : Call)
    (h0 : m.Payload[0]? = some (.bytes b0))
    (hr : w.resolveResourceId m.ResourceId = .ok method)
    (hc : T.NewCall w.getMetadata method [.Hash (NewHash b0)] = .ok call)
    (he : w.extendCall = true → ∃ eRID, T.EncodeToBytes m.ResourceId = .ok eRID) :
    (∃ p, createGenericProposal T w m = .ok p) ∧
    (NewHash b0).val = b0.take 32 ++ List.replicate (32 - b0.length) 0 ∧
    (b0.length = 32 → (NewHash b0).val = b0) := by
  refine ⟨?_, rfl, ?_⟩
  · rw [createGenericProposal_eq T w m h0 hr, hc, Res.ok_bind]
    cases hx : w.extendCall with
    | false => exact ⟨⟨m.Nonce, call, m.Source, m.ResourceId, method⟩, by simp⟩
    | true =>
      obtain ⟨eRID, hE⟩ := he hx
      exact ⟨⟨m.Nonce, ⟨call.callIndex, call.Args ++ eRID⟩, m.Source, m.ResourceId, method⟩,
        by simp [hE]⟩
  · intro hl
    simp [NewHash, copy32, hl, List.take_of_length_le (le_of_eq hl)]

/-- A five-byte `payload[0]` under `extendCall`: the generic builder succeeds. -/
theorem generic_hash_any_length_witness :
    ∃ p, createGenericProposal scaleTypes (w0 true) ⟨3, 7, rid 1, [.bytes [1, 2, 3, 4, 5]]⟩
      = .ok p :=
  (generic_hash_any_length scaleTypes (w0 true) ⟨3, 7, rid 1, [.bytes [1, 2, 3, 4, 5]]⟩
    [1, 2, 3, 4, 5] "Example.transfer" _ rfl rfl rfl (fun _ => ⟨_, rfl⟩)).1

/-! ## The fungible call, decoded again -/

theorem uintLE_length (len i : Nat) : (uintLE len i).length = len := by
  induction len generalizing i with
  | zero => rfl
  | succ n ih => simp [uintLE, ih]

/-- Reading little-endian bytes back gives the number modulo `256 ^ len`. -/
theorem SetBytes_reverse_uintLE (len i : Nat) :
    SetBytes (uintLE len i).reverse = i % 256 ^ len := by
  unfold SetBytes
  rw [List.foldl_reverse]
  induction len generalizing i with
  | zero => simp [uintLE, Nat.mod_one]
  | succ n ih =>
    simp only [uintLE, List.foldr_cons, ih]
    rw [pow_succ, Nat.mul_comm (256 ^ n) 256, Nat.mod_mul]
    omega

/-- The library encodes an amount below `2 ^ 128` as its 16 little-endian bytes. -/
theorem encodeArg_U128 {i : Nat} (h : i < 2 ^ 128) :
    encodeArg (.U128 i) = .ok (uintLE 16 i) := by
  have h1 : ¬ i > 256 ^ 16 := by norm_num at h ⊢; omega
  have h2 : ¬ i = 256 ^ 16 := by norm_num at h ⊢; omega
  simp only [encodeArg, BigIntToUintBytes, h1, h2, if_false, Res.bind_eq, Res.ok_bind,
    Res.pure_eq, List.reverse_reverse]

/-- Decoding an account id in front of more bytes. -/
theorem decodeAccountID_append (a rest : List Byte) (h : a.length = 32) :
    decodeAccountID (a ++ rest) = some (a, rest) := by
  have h32 : 32 ≤ (a ++ rest).length := by simp [h]
  have ht : (a ++ rest).take 32 = a := by rw [← h]; exact List.take_left' rfl
  have hd : (a ++ rest).drop 32 = rest := by rw [← h]; exact List.drop_left' rfl
  simp only [decodeAccountID, h32, if_true, ht, hd]

/-- Decoding a `U128` in front of more bytes. -/
theorem decodeU128_append {i : Nat} (rest : List Byte) (h : i < 2 ^ 128) :
    decodeU128 (uintLE 16 i ++ rest) = some (i, rest) := by
  have hl : (uintLE 16 i).length = 16 := uintLE_length 16 i
  have h16 : 16 ≤ (uintLE 16 i ++ rest).length := by simp [hl]
  have ht : (uintLE 16 i ++ rest).take 16 = uintLE 16 i := by
    rw [← hl]; exact List.take_left' rfl
  have hd : (uintLE 16 i ++ rest).drop 16 = rest := by
    rw [← hl]; exact List.drop_left' rfl
  have hm : i % 256 ^ 16 = i := Nat.mod_eq_of_lt (by norm_num at h ⊢; omega)
  simp only [decodeU128, h16, if_true, ht, hd, SetBytes_reverse_uintLE, hm]

/-- A 32-byte sequence is its own account id. -/
theorem NewAccountID_of_length {b : List Byte} (h : b.length = 32) : (NewAccountID b).val = b := by
  simp [NewAccountID, copy32, h, List.take_of_length_le (le_of_eq h)]

/-- C5, as stated, fails on two valid fungible messages with a registered
resource id: a three-byte recipient is padded to 32 bytes, so the first call
argument does not decode to the recipient bytes; and an amount of 17 bytes
`0xff` exceeds the 128 bits of the amount argument, so no proposal is produced. -/
theorem fungible_roundtrip_fails :
    (∃ p, createFungibleProposal scaleTypes (w0 false)
        ⟨3, 7, rid 1, [.bytes [1, 0], .bytes [9, 9, 9]]⟩ = .ok p ∧
      decodeAccountID p.call.Args = some ([9, 9, 9] ++ List.replicate 29 0, uintLE 16 256) ∧
      (decodeAccountID p.call.Args).map Prod.fst ≠ some [9, 9, 9]) ∧
    createFungibleProposal scaleTypes (w0 false)
        ⟨3, 7, rid 1, [.bytes (List.replicate 17 255), .bytes (List.replicate 32 9)]⟩
      = .err ⟨"cannot encode big.Int to []byte: given big.Int exceeds highest number"⟩ := by
  refine ⟨⟨_, rfl, ?_, ?_⟩, ?_⟩
  · decide
  · decide
  · rfl

/-- C5, amended: for every fungible message whose payload[0] holds bytes of
big-endian value below `2 ^ 128`, whose payload[1] holds exactly 32 recipient
bytes and whose resource id resolves to a method listed in the metadata,
`createFungibleProposal` with the library codec produces a proposal whose method
is the resolver's output, whose call index is the one the metadata lists for
it, and whose first two call arguments decode to the recipient bytes and to the
amount; what follows them is empty, or the resource id under `extendCall`. -/
theorem fungible_roundtrip (w : writer) (m : Message) (b0 b1 : List Byte) (method : String)
    (c : CallIndex)
    (h0 : m.Payload[0]? = some (.bytes b0)) (h1 : m.Payload[1]? = some (.bytes b1))
    (hr : w.resolveResourceId m.ResourceId = .ok method)
    (hc : FindCallIndex w.getMetadata method = .ok c)
    (hlen : b1.length = 32) (hamt : SetBytes b0 < 2 ^ 128) :
    ∃ p, createFungibleProposal scaleTypes w m = .ok p ∧
      p.method = method ∧ p.call.callIndex = c ∧
      decodeAccountID p.call.Args
        = some (b1, uintLE 16 (SetBytes b0) ++ if w.extendCall then m.ResourceId.val else []) ∧
      decodeU128 (uintLE 16 (SetBytes b0) ++ if w.extendCall then m.ResourceId.val else [])
        = some (SetBytes b0, if w.extendCall then m.ResourceId.val else []) := by
  have hcall : scaleTypes.NewCall w.getMetadata method
      [.AccountID (NewAccountID b1), .U128 (SetBytes b0)]
      = .ok ⟨c, b1 ++ uintLE 16 (SetBytes b0)⟩ := by
    have hA : encodeArg (.AccountID (NewAccountID b1)) = .ok b1 := by
      simp only [encodeArg, NewAccountID_of_length hlen]
    simp only [scaleTypes, scaleNewCall, hc, encodeArgs, encodeArg_U128 hamt, hA,
      Res.bind_eq, Res.ok_bind, Res.pure_eq, List.nil_append]
  rw [createFungibleProposal_eq scaleTypes w m h0 h1 hr, hcall, Res.ok_bind]
  cases hx : w.extendCall with
  | false =>
    refine ⟨⟨m.Nonce, ⟨c, b1 ++ uintLE 16 (SetBytes b0)⟩, m.Source, m.ResourceId, method⟩,
      by simp, rfl, rfl, ?_, ?_⟩
    · simpa using decodeAccountID_append b1 (uintLE 16 (SetBytes b0)) hlen
    · simpa using decodeU128_append [] hamt
  | true =>
    refine ⟨⟨m.Nonce, ⟨c, (b1 ++ uintLE 16 (SetBytes b0)) ++ m.ResourceId.val⟩, m.Source,
      m.ResourceId, method⟩, by simp [scaleTypes], rfl, rfl, ?_, ?_⟩
    · simpa using decodeAccountID_append b1 (uintLE 16 (SetBytes b0) ++ m.ResourceId.val) hlen
    · simpa using decodeU128_append m.ResourceId.val hamt

/-- The sample fungible message under `extendCall`: the call arguments decode to
the 32 recipient bytes and to the amount 256, and the resource id follows. -/
theorem fungible_roundtrip_witness :
    ∃ p, createFungibleProposal scaleTypes (w0 true) msgFungible = .ok p ∧
      p.method = "Example.transfer" ∧ p.call.callIndex = ⟨5, 0⟩ ∧
      decodeAccountID p.call.Args
        = some (List.replicate 32 9,
            uintLE 16 (SetBytes [1, 0]) ++ if (w0 true).extendCall then msgFungible.ResourceId.val else []) ∧
      decodeU128 (uintLE 16 (SetBytes [1, 0]) ++ if (w0 true).extendCall then msgFungible.ResourceId.val else [])
        = some (SetBytes [1, 0], if (w0 true).extendCall then msgFungible.ResourceId.val else []) :=
  fungible_roundtrip (w0 true) msgFungible [1, 0] (List.replicate 32 9) "Example.transfer" ⟨5, 0⟩
    rfl rfl rfl rfl (by decide) (by decide)

/-! ## Extension, argument order and encoder failures -/

/-- C6: with `extendCall` set, the argument bytes of a call built by any of the
three builders are the call encoder's argument bytes followed by the encoding
of the message's resource id, so they end with exactly that encoding. -/
theorem extend_call_appends (T : types) (w : writer) (m : Message)
    (hext : w.extendCall = true) :
    (∀ p, createFungibleProposal T w m = .ok p →
      ∃ b0 b1 call eRID, m.Payload[0]? = some (.bytes b0) ∧ m.Payload[1]? = some (.bytes b1) ∧
        T.NewCall w.getMetadata p.method [.AccountID (NewAccountID b1), .U128 (SetBytes b0)]
          = .ok call ∧
        T.EncodeToBytes m.ResourceId = .ok eRID ∧
        p.call.Args = call.Args ++ eRID ∧ eRID <:+ p.call.Args) ∧
    (∀ p, createNonFungibleProposal T w m = .ok p →
      ∃ b0 b1 b2 call eRID, m.Payload[0]? = some (.bytes b0) ∧
        m.Payload[1]? = some (.bytes b1) ∧ m.Payload[2]? = some (.bytes b2) ∧
        T.NewCall w.getMetadata p.method
          [.AccountID (NewAccountID b1), .U256 (SetBytes b0), .Bytes b2] = .ok call ∧
        T.EncodeToBytes m.ResourceId = .ok eRID ∧
        p.call.Args = call.Args ++ eRID ∧ eRID <:+ p.call.Args) ∧
    (∀ p, createGenericProposal T w m = .ok p →
      ∃ b0 call eRID, m.Payload[0]? = some (.bytes b0) ∧
        T.NewCall w.getMetadata p.method [.Hash (NewHash b0)] = .ok call ∧
        T.EncodeToBytes m.ResourceId = .ok eRID ∧
        p.call.Args = call.Args ++ eRID ∧ eRID <:+ p.call.Args) := by
  refine ⟨?_, ?_, ?_⟩
  · intro p h
    obtain ⟨b0, b1, method, h0, h1, hr⟩ := createFungibleProposal_inv h
    rw [createFungibleProposal_eq T w m h0 h1 hr] at h
    obtain ⟨call, hc, hp⟩ := tail_ok T w m method _ p h
    rcases hp with ⟨hx, -⟩ | ⟨-, eRID, he, rfl⟩
    · rw [hext] at hx; cases hx
    · exact ⟨b0, b1, call, eRID, h0, h1, hc, he, rfl, List.suffix_append _ _⟩
  · intro p h
    obtain ⟨b0, b1, b2, method, h0, h1, h2, hr⟩ := createNonFungibleProposal_inv h
    rw [createNonFungibleProposal_eq T w m h0 h1 h2 hr] at h
    obtain ⟨call, hc, hp⟩ := tail_ok T w m method _ p h
    rcases hp with ⟨hx, -⟩ | ⟨-, eRID, he, rfl⟩
    · rw [hext] at hx; cases hx
    · exact ⟨b0, b1, b2, call, eRID, h0, h1, h2, hc, he, rfl, List.suffix_append _ _⟩
  · intro p h
    obtain ⟨b0, method, h0, hr⟩ := createGenericProposal_inv h
    rw [createGenericProposal_eq T w m h0 hr] at h
    obtain ⟨call, hc, hp⟩ := tail_ok T w m method _ p h
    rcases hp with ⟨hx, -⟩ | ⟨-, eRID, he, rfl⟩
    · rw [hext] at hx; cases hx
    · exact ⟨b0, call, eRID, h0, hc, he, rfl, List.suffix_append _ _⟩

/-- The sample messages under `extendCall`: each built call ends with the 32
bytes of the resource id, which the library codec writes unchanged. -/
theorem extend_call_appends_witness :
    (w0 true).extendCall = true ∧
    (∃ p, createFungibleProposal scaleTypes (w0 true) msgFungible = .ok p ∧
      (rid 1).val <:+ p.call.Args) ∧
    (∃ p, createNonFungibleProposal scaleTypes (w0 true) msgNonFungible = .ok p ∧
      (rid 1).val <:+ p.call.Args) ∧
    (∃ p, createGenericProposal scaleTypes (w0 true) msgGeneric = .ok p ∧
      (rid 1).val <:+ p.call.Args) := by
  have hF : ∃ p, createFungibleProposal scaleTypes (w0 true) msgFungible = .ok p := ⟨_, rfl⟩
  have hN : ∃ p, createNonFungibleProposal scaleTypes (w0 true) msgNonFungible = .ok p :=
    ⟨_, rfl⟩
  have hG : ∃ p, createGenericProposal scaleTypes (w0 true) msgGeneric = .ok p := ⟨_, rfl⟩
  obtain ⟨pF, hF⟩ := hF
  obtain ⟨pN, hN⟩ := hN
  obtain ⟨pG, hG⟩ := hG
  obtain ⟨_, _, _, eF, _, _, _, heF, _, sF⟩ :=
    (extend_call_appends scaleTypes (w0 true) msgFungible rfl).1 pF hF
  obtain ⟨_, _, _, _, eN, _, _, _, _, heN, _, sN⟩ :=
    (extend_call_appends scaleTypes (w0 true) msgNonFungible rfl).2.1 pN hN
  obtain ⟨_, _, eG, _, _, heG, _, sG⟩ :=
    (extend_call_appends scaleTypes (w0 true) msgGeneric rfl).2.2 pG hG
  cases heF
  cases heN
  cases heG
  exact ⟨rfl, ⟨pF, hF, sF⟩, ⟨pN, hN, sN⟩, ⟨pG, hG, sG⟩⟩

/-- C7: once the payload positions hold bytes and the resource id resolves to
`method`, each builder calls the call encoder with the metadata, `method` and
its arguments in fixed order, and finishes from the encoder's answer:
(recipient, amount) for the fungible builder, (recipient, tokenId, metadata) for
the non-fungible one, (hash) for the generic one, where amount and tokenId are
the big-endian value of payload[0], recipient is payload[1] as an account id,
metadata is payload[2], and hash is payload[0] as a hash; a 32-byte payload is
its own account id or hash. -/
theorem call_arguments (T : types) (w : writer) (m : Message) (method : String)
    (hr : w.resolveResourceId m.ResourceId = .ok method) :
    (∀ b0 b1, m.Payload[0]? = some (.bytes b0) → m.Payload[1]? = some (.bytes b1) →
      createFungibleProposal T w m =
        (T.NewCall w.getMetadata method [.AccountID (NewAccountID b1), .U128 (SetBytes b0)]).bind
        fun call =>
          if w.extendCall = true then
            (T.EncodeToBytes m.ResourceId).bind fun eRID =>
              Res.ok ⟨m.Nonce, ⟨call.callIndex, call.Args ++ eRID⟩, m.Source, m.ResourceId, method⟩
          else Res.ok ⟨m.Nonce, call, m.Source, m.ResourceId, method⟩) ∧
    (∀ b0 b1 b2, m.Payload[0]? = some (.bytes b0) → m.Payload[1]? = some (.bytes b1) →
      m.Payload[2]? = some (.bytes b2) →
      createNonFungibleProposal T w m =
        (T.NewCall w.getMetadata method
          [.AccountID (NewAccountID b1), .U256 (SetBytes b0), .Bytes b2]).bind
        fun call =>
          if w.extendCall = true then
            (T.EncodeToBytes m.ResourceId).bind fun eRID =>
              Res.ok ⟨m.Nonce, ⟨call.callIndex, call.Args ++ eRID⟩, m.Source, m.ResourceId, method⟩
          else Res.ok ⟨m.Nonce, call, m.Source, m.ResourceId, method⟩) ∧
    (∀ b0, m.Payload[0]? = some (.bytes b0) →
      createGenericProposal T w m =
        (T.NewCall w.getMetadata method [.Hash (NewHash b0)]).bind
        fun call =>
          if w.extendCall = true then
            (T.EncodeToBytes m.ResourceId).bind fun eRID =>
              Res.ok ⟨m.Nonce, ⟨call.callIndex, call.Args ++ eRID⟩, m.Source, m.ResourceId, method⟩
          else Res.ok ⟨m.Nonce, call, m.Source, m.ResourceId, method⟩) ∧
    (∀ b : List Byte, b.length = 32 → (NewAccountID b).val = b ∧ (NewHash b).val = b) ∧
    (∀ (b : List Byte) (x : Byte), SetBytes (b ++ [x]) = SetBytes b * 256 + x.val) :=
  ⟨fun _ _ h0 h1 => createFungibleProposal_eq T w m h0 h1 hr,
   fun _ _ _ h0 h1 h2 => createNonFungibleProposal_eq T w m h0 h1 h2 hr,
   fun _ h0 => createGenericProposal_eq T w m h0 hr,
   fun _ hl => ⟨NewAccountID_of_length hl, NewAccountID_of_length hl⟩,
   fun b x => by simp [SetBytes]⟩

/-- The sample non-fungible message: the builder's result is the tail applied
to the encoder's answer on (recipient, tokenId 256, metadata). -/
theorem call_arguments_witness :
    (w0 false).resolveResourceId msgNonFungible.ResourceId = .ok "Example.transfer" ∧
    createNonFungibleProposal scaleTypes (w0 false) msgNonFungible =
      (scaleTypes.NewCall meta0 "Example.transfer"
        [.AccountID (NewAccountID (List.replicate 32 9)), .U256 (SetBytes [1, 0]),
         .Bytes [5, 6]]).bind
        fun call => Res.ok ⟨7, call, 3, rid 1, "Example.transfer"⟩ :=
  ⟨rfl, (call_arguments scaleTypes (w0 false) msgNonFungible "Example.transfer" rfl).2.1
    [1, 0] (List.replicate 32 9) [5, 6] rfl rfl rfl⟩

/-- C8: when the resource id resolves and the call encoder answers the
builder's arguments with an error, each builder returns that error and no
proposal; and when the call encoder accepts but, under `extendCall`, encoding
the resource id fails, each builder returns that encoding error. -/
theorem encoder_errors_returned (T : types) (w : writer) (m : Message) (method : String)
    (e : Error) (hr : w.resolveResourceId m.ResourceId = .ok method) :
    (∀ b0 b1, m.Payload[0]? = some (.bytes b0) → m.Payload[1]? = some (.bytes b1) →
      T.NewCall w.getMetadata method [.AccountID (NewAccountID b1), .U128 (SetBytes b0)]
        = .err e →
      createFungibleProposal T w m = .err e) ∧
    (∀ b0 b1 b2, m.Payload[0]? = some (.bytes b0) → m.Payload[1]? = some (.bytes b1) →
      m.Payload[2]? = some (.bytes b2) →
      T.NewCall w.getMetadata method
        [.AccountID (NewAccountID b1), .U256 (SetBytes b0), .Bytes b2] = .err e →
      createNonFungibleProposal T w m = .err e) ∧
    (∀ b0, m.Payload[0]? = some (.bytes b0) →
      T.NewCall w.getMetadata method [.Hash (NewHash b0)] = .err e →
      createGenericProposal T w m = .err e) ∧
    (w.extendCall = true → T.EncodeToBytes m.ResourceId = .err e →
      (∀ b0 b1 call, m.Payload[0]? = some (.bytes b0) → m.Payload[1]? = some (.bytes b1) →
        T.NewCall w.getMetadata method [.AccountID (NewAccountID b1), .U128 (SetBytes b0)]
          = .ok call →
        createFungibleProposal T w m = .err e) ∧
      (∀ b0 b1 b2 call, m.Payload[0]? = some (.bytes b0) → m.Payload[1]? = some (.bytes b1) →
        m.Payload[2]? = some (.bytes b2) →
        T.NewCall w.getMetadata method
          [.AccountID (NewAccountID b1), .U256 (SetBytes b0), .Bytes b2] = .ok call →
        createNonFungibleProposal T w m = .err e) ∧
      (∀ b0 call, m.Payload[0]? = some (.bytes b0) →
        T.NewCall w.getMetadata method [.Hash (NewHash b0)] = .ok call →
        createGenericProposal T w m = .err e)) := by
  refine ⟨?_, ?_, ?_, ?_⟩
  · intro b0 b1 h0 h1 hc
    rw [createFungibleProposal_eq T w m h0 h1 hr, hc, Res.err_bind]
  · intro b0 b1 b2 h0 h1 h2 hc
    rw [createNonFungibleProposal_eq T w m h0 h1 h2 hr, hc, Res.err_bind]
  · intro b0 h0 hc
    rw [createGenericProposal_eq T w m h0 hr, hc, Res.err_bind]
  · intro hx he
    refine ⟨?_, ?_, ?_⟩
    · intro b0 b1 call h0 h1 hc
      rw [createFungibleProposal_eq T w m h0 h1 hr, hc, Res.ok_bind, if_pos hx, he,
        Res.err_bind]
    · intro b0 b1 b2 call h0 h1 h2 hc
      rw [createNonFungibleProposal_eq T w m h0 h1 h2 hr, hc, Res.ok_bind, if_pos hx, he,
        Res.err_bind]
    · intro b0 call h0 hc
      rw [createGenericProposal_eq T w m h0 hr, hc, Res.ok_bind, if_pos hx, he, Res.err_bind]

/-- The resource id `rid 3` resolves to a method the metadata does not list,
so the library's call encoder rejects the call and the generic builder returns
its error; and with a codec whose resource-id encoding fails, the fungible
builder under `extendCall` returns that error. -/
theorem encoder_errors_returned_witness :
    (w0 false).resolveResourceId (rid 3) = .ok "Example.remark" ∧
    scaleTypes.NewCall meta0 "Example.remark" [.Hash (NewHash (List.replicate 32 4))]
      = .err ⟨"method not found in metadata"⟩ ∧
    createGenericProposal scaleTypes (w0 false) ⟨3, 7, rid 3, msgGeneric.Payload⟩
      = .err ⟨"method not found in metadata"⟩ ∧
    failingTypes.EncodeToBytes (rid 1) = .err ⟨"encode failed"⟩ ∧
    createFungibleProposal failingTypes (w0 true) msgFungible = .err ⟨"encode failed"⟩ :=
  ⟨rfl, rfl,
   (encoder_errors_returned scaleTypes (w0 false) ⟨3, 7, rid 3, msgGeneric.Payload⟩
      "Example.remark" _ rfl).2.2.1 (List.replicate 32 4) rfl rfl,
   rfl,
   ((encoder_errors_returned failingTypes (w0 true) msgFungible "Example.transfer"
      ⟨"encode failed"⟩ rfl).2.2.2 rfl rfl).1 [1, 0] (List.replicate 32 9)
      ⟨⟨5, 0⟩, List.replicate 32 9 ++ uintLE 16 256⟩ rfl rfl rfl⟩

/-! ## `voteStatus.Decode` -/

/-- C9: decoding into a zero-valued `voteStatus` succeeds on a first byte 0, 1
or 2: byte 0 sets only `IsActive`, byte 1 only `IsApproved`, byte 2 only
`IsRejected`; the bytes after the first stay unread. -/
theorem voteStatus_decode_known (rest : List Byte) :
    voteStatus.Decode ⟨false, false, false⟩ ⟨0 :: rest⟩
      = ⟨⟨true, false, false⟩, ⟨rest⟩, none, none⟩ ∧
    voteStatus.Decode ⟨false, false, false⟩ ⟨1 :: rest⟩
      = ⟨⟨false, true, false⟩, ⟨rest⟩, none, none⟩ ∧
    voteStatus.Decode ⟨false, false, false⟩ ⟨2 :: rest⟩
      = ⟨⟨false, false, true⟩, ⟨rest⟩, none, none⟩ :=
  ⟨rfl, rfl, rfl⟩

/-- C10: for a first byte other than 0, 1 and 2, decoding into a zero-valued
`voteStatus` returns no error, leaves the three flags false and consumes
exactly that byte. -/
theorem voteStatus_decode_unknown (b : Byte) (rest : List Byte)
    (h0 : b ≠ 0) (h1 : b ≠ 1) (h2 : b ≠ 2) :
    (voteStatus.Decode ⟨false, false, false⟩ ⟨b :: rest⟩).err = none ∧
    (voteStatus.Decode ⟨false, false, false⟩ ⟨b :: rest⟩).recv.IsActive = false ∧
    (voteStatus.Decode ⟨false, false, false⟩ ⟨b :: rest⟩).recv.IsApproved = false ∧
    (voteStatus.Decode ⟨false, false, false⟩ ⟨b :: rest⟩).recv.IsRejected = false ∧
    (voteStatus.Decode ⟨false, false, false⟩ ⟨b :: rest⟩).decoder.reader = rest := by
  simp [voteStatus.Decode, Decoder.ReadOneByte, h0, h1, h2]

/-- The discriminant byte 7, followed by one more byte. -/
theorem voteStatus_decode_unknown_witness :
    (voteStatus.Decode ⟨false, false, false⟩ ⟨[7, 1]⟩).err = none ∧
    (voteStatus.Decode ⟨false, false, false⟩ ⟨[7, 1]⟩).recv.IsActive = false ∧
    (voteStatus.Decode ⟨false, false, false⟩ ⟨[7, 1]⟩).recv.IsApproved = false ∧
    (voteStatus.Decode ⟨false, false, false⟩ ⟨[7, 1]⟩).recv.IsRejected = false ∧
    (voteStatus.Decode ⟨false, false, false⟩ ⟨[7, 1]⟩).decoder.reader = [1] :=
  voteStatus_decode_unknown 7 [1] (by decide) (by decide) (by decide)

/-! ## Decoding what the library encoded -/

theorem Read_append {bs : List Byte} {n : Nat} (rest : List Byte) (h : bs.length = n) :
    Decoder.Read n ⟨bs ++ rest⟩ = (.ok bs, ⟨rest⟩) := by
  have hn : n ≤ (bs ++ rest).length := by simp [h]
  have ht : (bs ++ rest).take n = bs := by rw [← h]; exact List.take_left' rfl
  have hd : (bs ++ rest).drop n = rest := by rw [← h]; exact List.drop_left' rfl
  simp only [Decoder.Read, hn, if_true, ht, hd]

theorem decodeUint_uintLE {w v : Nat} (rest : List Byte) (h : v < 256 ^ w) :
    decodeUint w ⟨uintLE w v ++ rest⟩ = (.ok v, ⟨rest⟩) := by
  simp only [decodeUint, Read_append rest (uintLE_length w v), leValue,
    SetBytes_reverse_uintLE, Nat.mod_eq_of_lt h]

theorem decodeBytes32_append (x : Bytes32) (rest : List Byte) :
    decodeBytes32 ⟨x.val ++ rest⟩ = (.ok x, ⟨rest⟩) := by
  have hn : 32 ≤ (x.val ++ rest).length := by simp [x.property]
  have ht : (x.val ++ rest).take 32 = x.val := List.take_left' x.property
  have hd : (x.val ++ rest).drop 32 = rest := List.drop_left' x.property
  simp only [decodeBytes32, hn, dite_true, hd]
  congr 2
  exact Subtype.ext ht

theorem decodeU256_uintLE {v : Nat} (rest : List Byte) (h : v < 256 ^ 32) :
    decodeU256 ⟨uintLE 32 v ++ rest⟩ = (.ok (some v), ⟨rest⟩) := by
  simp only [decodeU256, Read_append rest (uintLE_length 32 v), leValue,
    SetBytes_reverse_uintLE, Nat.mod_eq_of_lt h]

/-- The compact length prefix decodes to the length it encodes. -/
theorem DecodeUintCompact_encode {n : Nat} (rest : List Byte) (h : n < 2 ^ 32) :
    DecodeUintCompact ⟨EncodeUintCompact n ++ rest⟩ = (.ok n, ⟨rest⟩) := by
  unfold EncodeUintCompact
  split_ifs with h1 h2 h3
  · have e1 : n * 4 % 256 % 4 = 0 := by omega
    have e2 : n * 4 % 256 / 4 = n := by omega
    simp [uintLE, DecodeUintCompact, Decoder.ReadOneByte, e1, e2]
  · have e1 : (n * 4 + 1) % 256 % 4 = 1 := by omega
    have e2 : (n * 4 + 1) / 256 % 256 * 64 + (n * 4 + 1) % 256 / 4 = n := by omega
    simp [uintLE, DecodeUintCompact, Decoder.ReadOneByte, e1, e2]
  · have e0 : ¬ (n * 4 + 2) % 256 % 4 = 0 := by omega
    have e1 : ¬ (n * 4 + 2) % 256 % 4 = 1 := by omega
    have e2 : (n * 4 + 2) % 256 % 4 = 2 := by omega
    have hx : uintLE 4 (n * 4 + 2) ++ rest
        = ⟨(n * 4 + 2) % 256, Nat.mod_lt _ (by decide)⟩
            :: (uintLE 3 ((n * 4 + 2) / 256) ++ rest) := rfl
    have hv : ((n * 4 + 2) % 256 + 256 * ((n * 4 + 2) / 256 % 256 ^ 3)) / 4 = n := by omega
    simp only [hx, DecodeUintCompact, Decoder.ReadOneByte, e0, e1, e2, if_false, if_true,
      Read_append rest (uintLE_length 3 _), leValue, SetBytes_reverse_uintLE, hv]
    simp
  · have hl : Nat.log 256 n = 3 := by
      apply Nat.log_eq_of_pow_le_of_lt_pow <;> omega
    have hx : uintLE 1 ((Nat.log 256 n + 1 - 4) * 4 + 3) ++ uintLE (Nat.log 256 n + 1) n ++ rest
        = (3 : Byte) :: (uintLE 4 n ++ rest) := by
      rw [hl]; rfl
    have e3 : ((3 : Byte) : ℕ) = 3 := rfl
    have hv : n % 256 ^ 4 = n := Nat.mod_eq_of_lt (by omega)
    simp only [hx, DecodeUintCompact, Decoder.ReadOneByte, e3]
    simp only [show ¬ (3 % 4 = 0) by decide, show ¬ (3 % 4 = 1) by decide,
      show ¬ (3 % 4 = 2) by decide, if_false, show 3 / 4 + 4 = 4 by decide,
      Read_append rest (uintLE_length 4 n), leValue, SetBytes_reverse_uintLE, hv]

theorem decodeN_bytes (bs rest : List Byte) :
    decodeN decodeByte bs.length ⟨bs ++ rest⟩ = (.ok bs, ⟨rest⟩) := by
  induction bs with
  | nil => rfl
  | cons b bs ih => simp only [List.length_cons, decodeN, List.cons_append, decodeByte, ih]

theorem decodeN_ids (ids : List Bytes32) (rest : List Byte) :
    decodeN decodeBytes32 ids.length ⟨(ids.map Subtype.val).flatten ++ rest⟩
      = (.ok ids, ⟨rest⟩) := by
  induction ids with
  | nil => rfl
  | cons x ids ih =>
    simp only [List.length_cons, decodeN, List.map_cons, List.flatten_cons, List.append_assoc,
      decodeBytes32_append, ih]

/-- A length-prefixed byte string decodes to the bytes that were encoded. -/
theorem decodeSlice_bytes {b enc : List Byte} (rest : List Byte)
    (h : encodeBytes b = .ok enc) :
    decodeSlice decodeByte ⟨enc ++ rest⟩ = (.ok b, ⟨rest⟩) := by
  unfold encodeBytes at h
  split_ifs at h with hl
  cases h
  have hl' : b.length < 2 ^ 32 := by omega
  have hm : b.length % 2 ^ 64 = b.length := Nat.mod_eq_of_lt (by omega)
  have hn : ¬ b.length > 2 ^ 32 - 1 := hl
  simp only [decodeSlice, List.append_assoc, DecodeUintCompact_encode _ hl', hm, hn, if_false,
    decodeN_bytes]

/-- A length-prefixed list of account ids decodes to the ids that were encoded. -/
theorem decodeSlice_ids {ids : List Bytes32} {enc : List Byte} (rest : List Byte)
    (h : encodeAccountIDs ids = .ok enc) :
    decodeSlice decodeBytes32 ⟨enc ++ rest⟩ = (.ok ids, ⟨rest⟩) := by
  unfold encodeAccountIDs at h
  split_ifs at h with hl
  cases h
  have hl' : ids.length < 2 ^ 32 := by omega
  have hm : ids.length % 2 ^ 64 = ids.length := Nat.mod_eq_of_lt (by omega)
  have hn : ¬ ids.length > 2 ^ 32 - 1 := hl
  simp only [decodeSlice, List.append_assoc, DecodeUintCompact_encode _ hl', hm, hn, if_false,
    decodeN_ids]

/-- An amount that the library encodes is present and below `2 ^ 256`. -/
theorem encodeU256_ok {x : Option Nat} {enc : List Byte} (h : encodeU256 x = .ok enc) :
    ∃ v, x = some v ∧ v < 256 ^ 32 ∧ enc = uintLE 32 v := by
  cases x with
  | none => cases h
  | some v =>
    simp only [encodeU256, BigIntToUintBytes, Res.bind_eq, Res.pure_eq] at h
    split_ifs at h with h1 h2
    · simp at h
    · simp at h
    · simp only [Res.ok_bind, List.reverse_reverse, Res.ok.injEq] at h
      exact ⟨v, rfl, by omega, h.symm⟩

/-- The byte layout of a fungible item, decoded. -/
theorem FungibleTransferItem_layout (t0 : FungibleTransferItem) (d n : Nat) (r : Bytes32)
    (a : Nat) (rc enc rest : List Byte) (hd : d < 256 ^ 1) (hn : n < 256 ^ 8)
    (ha : a < 256 ^ 32) (hrc : encodeBytes rc = .ok enc) :
    FungibleTransferItem.Decode t0
        ⟨uintLE 1 d ++ (uintLE 8 n ++ (r.val ++ (uintLE 32 a ++ (enc ++ rest))))⟩
      = ⟨⟨d, n, r, some a, rc⟩, ⟨rest⟩, none, none⟩ := by
  simp only [FungibleTransferItem.Decode, Decoded.field, decodeUint_uintLE _ hd,
    decodeUint_uintLE _ hn, decodeBytes32_append, decodeU256_uintLE _ ha,
    decodeSlice_bytes _ hrc]

/-- The byte layout of a non-fungible item, decoded. -/
theorem NonFungibleTransferItem_layout (t0 : NonFungibleTransferItem) (d n : Nat) (r : Bytes32)
    (k rc md ek erc emd rest : List Byte) (hd : d < 256 ^ 1) (hn : n < 256 ^ 8)
    (hk : encodeBytes k = .ok ek) (hrc : encodeBytes rc = .ok erc)
    (hmd : encodeBytes md = .ok emd) :
    NonFungibleTransferItem.Decode t0
        ⟨uintLE 1 d ++ (uintLE 8 n ++ (r.val ++ (ek ++ (erc ++ (emd ++ rest)))))⟩
      = ⟨⟨d, n, r, k, rc, md⟩, ⟨rest⟩, none, none⟩ := by
  simp only [NonFungibleTransferItem.Decode, Decoded.field, decodeUint_uintLE _ hd,
    decodeUint_uintLE _ hn, decodeBytes32_append, decodeSlice_bytes _ hk,
    decodeSlice_bytes _ hrc, decodeSlice_bytes _ hmd]

/-- The byte layout of a generic item, decoded. -/
theorem GenericTransferItem_layout (t0 : GenericTransferItem) (d n : Nat) (r : Bytes32)
    (md emd rest : List Byte) (hd : d < 256 ^ 1) (hn : n < 256 ^ 8)
    (hmd : encodeBytes md = .ok emd) :
    GenericTransferItem.Decode t0 ⟨uintLE 1 d ++ (uintLE 8 n ++ (r.val ++ (emd ++ rest)))⟩
      = ⟨⟨d, n, r, md⟩, ⟨rest⟩, none, none⟩ := by
  simp only [GenericTransferItem.Decode, Decoded.field, decodeUint_uintLE _ hd,
    decodeUint_uintLE _ hn, decodeBytes32_append, decodeSlice_bytes _ hmd]

/-- What a fungible item's encoding consists of. -/
theorem FungibleTransferItem_encode_ok {t : FungibleTransferItem} {bs : List Byte}
    (h : t.encode = .ok bs) :
    ∃ a enc, t.Amount = some a ∧ a < 256 ^ 32 ∧ encodeBytes t.Recipient = .ok enc ∧
      bs = uintLE 1 t.Destination ++ (uintLE 8 t.DepositNonce ++ (t.ResourceId.val ++
        (uintLE 32 a ++ enc))) := by
  simp only [FungibleTransferItem.encode, Res.bind_eq, Res.pure_eq] at h
  cases ha : encodeU256 t.Amount with
  | err e => simp [ha] at h
  | panic q => simp [ha] at h
  | ok ea =>
    cases hr : encodeBytes t.Recipient with
    | err e => simp [ha, hr] at h
    | panic q => simp [ha, hr] at h
    | ok enc =>
      obtain ⟨a, hA, hlt, rfl⟩ := encodeU256_ok ha
      simp only [ha, hr, Res.ok_bind, Res.ok.injEq, List.append_assoc] at h
      exact ⟨a, enc, hA, hlt, rfl, h.symm⟩

/-- What a non-fungible item's encoding consists of. -/
theorem NonFungibleTransferItem_encode_ok {t : NonFungibleTransferItem} {bs : List Byte}
    (h : t.encode = .ok bs) :
    ∃ ek erc emd, encodeBytes t.TokenId = .ok ek ∧ encodeBytes t.Recipient = .ok erc ∧
      encodeBytes t.Metadata = .ok emd ∧
      bs = uintLE 1 t.Destination ++ (uintLE 8 t.DepositNonce ++ (t.ResourceId.val ++
        (ek ++ (erc ++ emd)))) := by
  simp only [NonFungibleTransferItem.encode, Res.bind_eq, Res.pure_eq] at h
  cases hk : encodeBytes t.TokenId with
  | err e => simp [hk] at h
  | panic q => simp [hk] at h
  | ok ek =>
    cases hr : encodeBytes t.Recipient with
    | err e => simp [hk, hr] at h
    | panic q => simp [hk, hr] at h
    | ok erc =>
      cases hm : encodeBytes t.Metadata with
      | err e => simp [hk, hr, hm] at h
      | panic q => simp [hk, hr, hm] at h
      | ok emd =>
        simp only [hk, hr, hm, Res.ok_bind, Res.ok.injEq, List.append_assoc] at h
        exact ⟨ek, erc, emd, rfl, rfl, rfl, h.symm⟩

/-- What a generic item's encoding consists of. -/
theorem GenericTransferItem_encode_ok {t : GenericTransferItem} {bs : List Byte}
    (h : t.encode = .ok bs) :
    ∃ emd, encodeBytes t.Metadata = .ok emd ∧
      bs = uintLE 1 t.Destination ++ (uintLE 8 t.DepositNonce ++ (t.ResourceId.val ++ emd)) := by
  simp only [GenericTransferItem.encode, Res.bind_eq, Res.pure_eq] at h
  cases hm : encodeBytes t.Metadata with
  | err e => simp [hm] at h
  | panic q => simp [hm] at h
  | ok emd =>
    simp only [hm, Res.ok_bind, Res.ok.injEq, List.append_assoc] at h
    exact ⟨emd, rfl, h.symm⟩

/-! ## `BridgeEvent.Decode` -/

/-- C11: for every transfer item that the library encodes (destination id a
byte, deposit nonce a 64-bit number), decoding the item's discriminant followed
by the item's encoding into a zero-valued `BridgeEvent` succeeds, sets exactly
the matching flag, makes the matching payload field equal to the item, leaves
the two other payload fields zero, and consumes exactly these bytes. -/
theorem bridgeEvent_roundtrip (rest : List Byte) :
    (∀ (t : FungibleTransferItem) (bs : List Byte), t.Destination < 2 ^ 8 →
      t.DepositNonce < 2 ^ 64 → t.encode = .ok bs →
      BridgeEvent.Decode scaleDecode ⟨false, {}, false, {}, false, {}⟩ ⟨0 :: (bs ++ rest)⟩
        = ⟨⟨true, t, false, {}, false, {}⟩, ⟨rest⟩, none, none⟩) ∧
    (∀ (t : NonFungibleTransferItem) (bs : List Byte), t.Destination < 2 ^ 8 →
      t.DepositNonce < 2 ^ 64 → t.encode = .ok bs →
      BridgeEvent.Decode scaleDecode ⟨false, {}, false, {}, false, {}⟩ ⟨1 :: (bs ++ rest)⟩
        = ⟨⟨false, {}, true, t, false, {}⟩, ⟨rest⟩, none, none⟩) ∧
    (∀ (t : GenericTransferItem) (bs : List Byte), t.Destination < 2 ^ 8 →
      t.DepositNonce < 2 ^ 64 → t.encode = .ok bs →
      BridgeEvent.Decode scaleDecode ⟨false, {}, false, {}, false, {}⟩ ⟨2 :: (bs ++ rest)⟩
        = ⟨⟨false, {}, false, {}, true, t⟩, ⟨rest⟩, none, none⟩) := by
  refine ⟨?_, ?_, ?_⟩
  · intro t bs hd hn h
    obtain ⟨a, enc, hA, ha, hrc, rfl⟩ := FungibleTransferItem_encode_ok h
    have hl := FungibleTransferItem_layout {} t.Destination t.DepositNonce t.ResourceId a
      t.Recipient enc rest (by omega) (by omega) ha hrc
    obtain ⟨d, n, r, am, rc⟩ := t
    cases hA
    simp only [BridgeEvent.Decode, Decoder.ReadOneByte, scaleDecode, List.append_assoc, hl]
    rfl
  · intro t bs hd hn h
    obtain ⟨ek, erc, emd, hk, hrc, hmd, rfl⟩ := NonFungibleTransferItem_encode_ok h
    have hl := NonFungibleTransferItem_layout {} t.Destination t.DepositNonce t.ResourceId
      t.TokenId t.Recipient t.Metadata ek erc emd rest (by omega) (by omega) hk hrc hmd
    simp only [BridgeEvent.Decode, Decoder.ReadOneByte, scaleDecode, List.append_assoc, hl]
    rfl
  · intro t bs hd hn h
    obtain ⟨emd, hmd, rfl⟩ := GenericTransferItem_encode_ok h
    have hl := GenericTransferItem_layout {} t.Destination t.DepositNonce t.ResourceId
      t.Metadata emd rest (by omega) (by omega) hmd
    simp only [BridgeEvent.Decode, Decoder.ReadOneByte, scaleDecode, List.append_assoc, hl]
    rfl

/-- A generic item with a 32-byte hash as metadata: its encoding, behind the
discriminant 2, decodes to the same item, the metadata byte for byte. -/
theorem bridgeEvent_roundtrip_witness :
    ∃ bs, GenericTransferItem.encode ⟨3, 7, rid 1, List.replicate 32 4⟩ = .ok bs ∧
      BridgeEvent.Decode scaleDecode ⟨false, {}, false, {}, false, {}⟩ ⟨2 :: (bs ++ [])⟩
        = ⟨⟨false, {}, false, {}, true, ⟨3, 7, rid 1, List.replicate 32 4⟩⟩, ⟨[]⟩, none, none⟩ :=
  ⟨_, rfl, (bridgeEvent_roundtrip []).2.2 ⟨3, 7, rid 1, List.replicate 32 4⟩ _
    (by decide) (by decide) rfl⟩

/-- C12: for a discriminant byte other than 0, 1 and 2, whatever bytes follow,
decoding into a zero-valued `BridgeEvent` returns no error, leaves the three
flags false and the three payload fields zero, and consumes only the
discriminant byte. -/
theorem bridgeEvent_decode_unknown (S : scale) (b : Byte) (rest : List Byte)
    (h0 : b ≠ 0) (h1 : b ≠ 1) (h2 : b ≠ 2) :
    BridgeEvent.Decode S ⟨false, {}, false, {}, false, {}⟩ ⟨b :: rest⟩
      = ⟨⟨false, {}, false, {}, false, {}⟩, ⟨rest⟩, none, none⟩ := by
  simp [BridgeEvent.Decode, Decoder.ReadOneByte, h0, h1, h2]

/-- The discriminant byte 7 followed by two bytes. -/
theorem bridgeEvent_decode_unknown_witness :
    BridgeEvent.Decode scaleDecode ⟨false, {}, false, {}, false, {}⟩ ⟨[7, 0, 1]⟩
      = ⟨⟨false, {}, false, {}, false, {}⟩, ⟨[0, 1]⟩, none, none⟩ :=
  bridgeEvent_decode_unknown scaleDecode 7 [0, 1] (by decide) (by decide) (by decide)

/-- C13: on an input with no byte left, `voteStatus.Decode` and
`BridgeEvent.Decode` both return the error of the reader's `ReadOneByte` and
leave the receiver as it was. -/
theorem decode_truncated (S : scale) (v : voteStatus) (m : BridgeEvent) :
    (Decoder.ReadOneByte ⟨[]⟩).1 = .error ⟨"EOF"⟩ ∧
    voteStatus.Decode v ⟨[]⟩ = ⟨v, ⟨[]⟩, some ⟨"EOF"⟩, none⟩ ∧
    BridgeEvent.Decode S m ⟨[]⟩ = ⟨m, ⟨[]⟩, some ⟨"EOF"⟩, none⟩ :=
  ⟨rfl, rfl, rfl⟩

/-- C14, as stated, fails: a generic item's body that ends inside the length
prefix of its metadata cannot be parsed, the nested decoding panics, and
`BridgeEvent.Decode` returns no error: it panics too. -/
theorem cut_length_prefix_no_error :
    (scaleDecode.DecodeGeneric {} ⟨uintLE 1 3 ++ uintLE 8 7 ++ (rid 1).val ++ [2, 0]⟩).err
      = none ∧
    (scaleDecode.DecodeGeneric {} ⟨uintLE 1 3 ++ uintLE 8 7 ++ (rid 1).val ++ [2, 0]⟩).panic
      = some nilLength ∧
    (BridgeEvent.Decode scaleDecode {}
        ⟨2 :: (uintLE 1 3 ++ uintLE 8 7 ++ (rid 1).val ++ [2, 0])⟩).err = none ∧
    (BridgeEvent.Decode scaleDecode {}
        ⟨2 :: (uintLE 1 3 ++ uintLE 8 7 ++ (rid 1).val ++ [2, 0])⟩).panic
      = some nilLength := by
  refine ⟨?_, ?_, ?_, ?_⟩ <;> decide

/-- C14, amended: for a discriminant 0, 1 or 2, when the nested decoding of the
selected item returns an error, `BridgeEvent.Decode` returns exactly that error
and does not panic; when the nested decoding panics instead, as the library's
does on a body cut inside a length prefix, `BridgeEvent.Decode` panics with it
and returns no error. In neither case does it succeed. -/
theorem nested_failure_passed_on (S : scale) (m : BridgeEvent) (rest : List Byte) :
    (∀ e, (S.DecodeFungible {} ⟨rest⟩).err = some e →
      (BridgeEvent.Decode S m ⟨0 :: rest⟩).err = some e ∧
      (BridgeEvent.Decode S m ⟨0 :: rest⟩).panic = none) ∧
    (∀ e, (S.DecodeNonFungible {} ⟨rest⟩).err = some e →
      (BridgeEvent.Decode S m ⟨1 :: rest⟩).err = some e ∧
      (BridgeEvent.Decode S m ⟨1 :: rest⟩).panic = none) ∧
    (∀ e, (S.DecodeGeneric {} ⟨rest⟩).err = some e →
      (BridgeEvent.Decode S m ⟨2 :: rest⟩).err = some e ∧
      (BridgeEvent.Decode S m ⟨2 :: rest⟩).panic = none) ∧
    (∀ q, (S.DecodeFungible {} ⟨rest⟩).err = none →
      (S.DecodeFungible {} ⟨rest⟩).panic = some q →
      (BridgeEvent.Decode S m ⟨0 :: rest⟩).err = none ∧
      (BridgeEvent.Decode S m ⟨0 :: rest⟩).panic = some q) ∧
    (∀ q, (S.DecodeNonFungible {} ⟨rest⟩).err = none →
      (S.DecodeNonFungible {} ⟨rest⟩).panic = some q →
      (BridgeEvent.Decode S m ⟨1 :: rest⟩).err = none ∧
      (BridgeEvent.Decode S m ⟨1 :: rest⟩).panic = some q) ∧
    (∀ q, (S.DecodeGeneric {} ⟨rest⟩).err = none →
      (S.DecodeGeneric {} ⟨rest⟩).panic = some q →
      (BridgeEvent.Decode S m ⟨2 :: rest⟩).err = none ∧
      (BridgeEvent.Decode S m ⟨2 :: rest⟩).panic = some q) := by
  refine ⟨?_, ?_, ?_, ?_, ?_, ?_⟩
  · intro e h
    simp [BridgeEvent.Decode, Decoder.ReadOneByte, h]
  · intro e h
    simp [BridgeEvent.Decode, Decoder.ReadOneByte, h]
  · intro e h
    simp [BridgeEvent.Decode, Decoder.ReadOneByte, h]
  · intro q h hq
    simp [BridgeEvent.Decode, Decoder.ReadOneByte, h, hq]
  · intro q h hq
    simp [BridgeEvent.Decode, Decoder.ReadOneByte, h, hq]
  · intro q h hq
    simp [BridgeEvent.Decode, Decoder.ReadOneByte, h, hq]

/-- Three bodies that end inside a fixed-width field, where the nested decoding
returns an error, and a fungible body that ends inside the length prefix of the
recipient, where it panics. -/
theorem nested_failure_passed_on_witness :
    (BridgeEvent.Decode scaleDecode {} ⟨[0]⟩).err
      = some ⟨"expected more bytes, but could not decode any more"⟩ ∧
    (BridgeEvent.Decode scaleDecode {} ⟨[1, 3, 7, 0]⟩).err
      = some ⟨"expected more bytes, but could not decode any more"⟩ ∧
    (BridgeEvent.Decode scaleDecode {} ⟨[2, 3, 7, 0, 0, 0, 0, 0, 0, 0, 1, 1]⟩).err
      = some ⟨"expected more bytes, but could not decode any more"⟩ ∧
    (BridgeEvent.Decode scaleDecode {}
        ⟨0 :: (uintLE 1 3 ++ uintLE 8 7 ++ (rid 1).val ++ uintLE 32 256 ++ [1])⟩).panic
      = some nilLength :=
  ⟨((nested_failure_passed_on scaleDecode {} []).1 _ rfl).1,
   ((nested_failure_passed_on scaleDecode {} [3, 7, 0]).2.1 _ rfl).1,
   ((nested_failure_passed_on scaleDecode {} [3, 7, 0, 0, 0, 0, 0, 0, 0, 1, 1]).2.2.1 _ rfl).1,
   ((nested_failure_passed_on scaleDecode {}
      (uintLE 1 3 ++ uintLE 8 7 ++ (rid 1).val ++ uintLE 32 256 ++ [1])).2.2.2.1 _
      (by decide) (by decide)).2⟩

/-- C19: `BridgeEvent.Decode` is not atomic. When the nested decoding of the
item selected by discriminant 0 (1, 2) returns an error, the receiver comes
back with `IsFungible` (`IsNonFungible`, `IsGeneric`) set to true and every
other field, the matching payload field included, as it was. -/
theorem decode_sets_flag_before_body (S : scale) (m : BridgeEvent) (rest : List Byte)
    (e : Error) :
    ((S.DecodeFungible {} ⟨rest⟩).err = some e →
      (BridgeEvent.Decode S m ⟨0 :: rest⟩).err = some e ∧
      (BridgeEvent.Decode S m ⟨0 :: rest⟩).recv =
        ⟨true, m.FungibleTransfer, m.IsNonFungible, m.NonFungibleTransfer, m.IsGeneric,
          m.GenericTransfer⟩) ∧
    ((S.DecodeNonFungible {} ⟨rest⟩).err = some e →
      (BridgeEvent.Decode S m ⟨1 :: rest⟩).err = some e ∧
      (BridgeEvent.Decode S m ⟨1 :: rest⟩).recv =
        ⟨m.IsFungible, m.FungibleTransfer, true, m.NonFungibleTransfer, m.IsGeneric,
          m.GenericTransfer⟩) ∧
    ((S.DecodeGeneric {} ⟨rest⟩).err = some e →
      (BridgeEvent.Decode S m ⟨2 :: rest⟩).err = some e ∧
      (BridgeEvent.Decode S m ⟨2 :: rest⟩).recv =
        ⟨m.IsFungible, m.FungibleTransfer, m.IsNonFungible, m.NonFungibleTransfer, true,
          m.GenericTransfer⟩) := by
  refine ⟨?_, ?_, ?_⟩ <;> intro h <;>
    simp [BridgeEvent.Decode, Decoder.ReadOneByte, h]

/-- A zero-valued receiver and an input that ends inside the fungible item: the
error comes back with `IsFungible` set and the payload still zero. -/
theorem decode_sets_flag_before_body_witness :
    (BridgeEvent.Decode scaleDecode {} ⟨[0, 9]⟩).err
      = some ⟨"expected more bytes, but could not decode any more"⟩ ∧
    (BridgeEvent.Decode scaleDecode {} ⟨[0, 9]⟩).recv = ⟨true, {}, false, {}, false, {}⟩ :=
  (decode_sets_flag_before_body scaleDecode {} [9] _).1 rfl

/-! ## `voteState`, item layout, `BridgeEvents` -/

/-- C15: decoding a vote state is a left inverse of the encoder. For lists of
account ids `F` and `A` that the library encodes, decoding the encoding of `F`,
the encoding of `A` and the discriminant of a status into a zero-valued
`voteState` yields `VotesFor = F` and `VotesAgainst = A` in the same order and a
`Status` with exactly the flag of that status set: 0 active, 1 approved,
2 rejected. -/
theorem voteState_roundtrip (F A : List Bytes32) (eF eA rest : List Byte)
    (hF : encodeAccountIDs F = .ok eF) (hA : encodeAccountIDs A = .ok eA) :
    decodeVoteState ⟨[], [], ⟨false, false, false⟩⟩ ⟨eF ++ (eA ++ 0 :: rest)⟩
      = ⟨⟨F, A, ⟨true, false, false⟩⟩, ⟨rest⟩, none, none⟩ ∧
    decodeVoteState ⟨[], [], ⟨false, false, false⟩⟩ ⟨eF ++ (eA ++ 1 :: rest)⟩
      = ⟨⟨F, A, ⟨false, true, false⟩⟩, ⟨rest⟩, none, none⟩ ∧
    decodeVoteState ⟨[], [], ⟨false, false, false⟩⟩ ⟨eF ++ (eA ++ 2 :: rest)⟩
      = ⟨⟨F, A, ⟨false, false, true⟩⟩, ⟨rest⟩, none, none⟩ := by
  refine ⟨?_, ?_, ?_⟩ <;>
    simp only [decodeVoteState, Decoded.field, decodeSlice_ids _ hF, decodeSlice_ids _ hA] <;>
    rfl

/-- Votes for by two accounts, against by one, status approved. -/
theorem voteState_roundtrip_witness :
    ∃ eF eA, encodeAccountIDs [rid 1, rid 2] = .ok eF ∧ encodeAccountIDs [rid 3] = .ok eA ∧
      decodeVoteState ⟨[], [], ⟨false, false, false⟩⟩ ⟨eF ++ (eA ++ 1 :: [])⟩
        = ⟨⟨[rid 1, rid 2], [rid 3], ⟨false, true, false⟩⟩, ⟨[]⟩, none, none⟩ :=
  ⟨_, _, rfl, rfl, (voteState_roundtrip [rid 1, rid 2] [rid 3] _ _ [] rfl rfl).2.1⟩

/-- C16, as stated, fails for `NonFungibleTransferItem`: recipient is not its
last field. Of three one-byte strings after the resource id, the second is
decoded as the recipient and the last as the metadata. -/
theorem nonfungible_recipient_not_last :
    (NonFungibleTransferItem.Decode {}
        ⟨uintLE 1 3 ++ uintLE 8 7 ++ (rid 1).val ++ [4, 0xAA] ++ [4, 0xBB] ++ [4, 0xCC]⟩).recv
      = ⟨3, 7, rid 1, [0xAA], [0xBB], [0xCC]⟩ ∧
    (NonFungibleTransferItem.Decode {}
        ⟨uintLE 1 3 ++ uintLE 8 7 ++ (rid 1).val ++ [4, 0xAA] ++ [4, 0xBB] ++ [4, 0xCC]⟩).recv.Recipient
      ≠ [0xCC] := by
  refine ⟨?_, ?_⟩ <;> decide

/-- C16, amended: every transfer item is decoded field by field in declared
order: destination id, deposit nonce, resource id, then the type-specific
fields: amount and recipient for `FungibleTransferItem` (recipient last);
token id, recipient and metadata for `NonFungibleTransferItem` (metadata last);
metadata for `GenericTransferItem`. -/
theorem item_field_order (d n : Nat) (r : Bytes32) (rest : List Byte)
    (hd : d < 2 ^ 8) (hn : n < 2 ^ 64) :
    (∀ (a : Nat) (rc erc : List Byte), a < 2 ^ 256 → encodeBytes rc = .ok erc →
      FungibleTransferItem.Decode {}
          ⟨uintLE 1 d ++ uintLE 8 n ++ r.val ++ uintLE 32 a ++ erc ++ rest⟩
        = ⟨⟨d, n, r, some a, rc⟩, ⟨rest⟩, none, none⟩) ∧
    (∀ (k rc md ek erc emd : List Byte), encodeBytes k = .ok ek →
      encodeBytes rc = .ok erc → encodeBytes md = .ok emd →
      NonFungibleTransferItem.Decode {}
          ⟨uintLE 1 d ++ uintLE 8 n ++ r.val ++ ek ++ erc ++ emd ++ rest⟩
        = ⟨⟨d, n, r, k, rc, md⟩, ⟨rest⟩, none, none⟩) ∧
    (∀ (md emd : List Byte), encodeBytes md = .ok emd →
      GenericTransferItem.Decode {} ⟨uintLE 1 d ++ uintLE 8 n ++ r.val ++ emd ++ rest⟩
        = ⟨⟨d, n, r, md⟩, ⟨rest⟩, none, none⟩) := by
  have hd' : d < 256 ^ 1 := by omega
  have hn' : n < 256 ^ 8 := by omega
  refine ⟨?_, ?_, ?_⟩
  · intro a rc erc ha hrc
    simp only [List.append_assoc]
    exact FungibleTransferItem_layout {} d n r a rc erc rest hd' hn' (by omega) hrc
  · intro k rc md ek erc emd hk hrc hmd
    simp only [List.append_assoc]
    exact NonFungibleTransferItem_layout {} d n r k rc md ek erc emd rest hd' hn' hk hrc hmd
  · intro md emd hmd
    simp only [List.append_assoc]
    exact GenericTransferItem_layout {} d n r md emd rest hd' hn' hmd

/-- A fungible item laid out by hand: destination 3, nonce 7, resource id,
amount 256 and a three-byte recipient. -/
theorem item_field_order_witness :
    encodeBytes [1, 2, 3] = .ok [12, 1, 2, 3] ∧
    FungibleTransferItem.Decode {}
        ⟨uintLE 1 3 ++ uintLE 8 7 ++ (rid 1).val ++ uintLE 32 256 ++ [12, 1, 2, 3] ++ []⟩
      = ⟨⟨3, 7, rid 1, some 256, [1, 2, 3]⟩, ⟨[]⟩, none, none⟩ :=
  ⟨rfl, (item_field_order 3 7 (rid 1) [] (by decide) (by decide)).1 256 [1, 2, 3] [12, 1, 2, 3]
    (by decide) rfl⟩

/-- C17: decoding `BridgeEvents` from an empty byte buffer returns the empty
sequence and no error, whatever the item decoders are. -/
theorem bridgeEvents_empty_buffer (S : scale) :
    decodeBridgeEvents S ⟨[]⟩ = ⟨[], ⟨[]⟩, none, none⟩ := by
  rfl

/-! ## `proposal.encode` and the unextended call -/

/-- C18: `proposal.encode` takes only nonce and call. Its output is the
encoding of `depositNonce` followed by the encoding of `call`, and two
proposals with equal `depositNonce` and equal `call` encode to the same bytes
whatever their `sourceId`, `resourceId` and `method`. -/
theorem proposal_encode_nonce_call (p q : proposal) :
    p.encode = .ok (encodeFields [.U64 p.depositNonce] ++ encodeFields [.Call p.call]) ∧
    (p.depositNonce = q.depositNonce → p.call = q.call → p.encode = q.encode) := by
  refine ⟨?_, ?_⟩
  · simp [proposal.encode, encodeFields]
  · intro hn hc
    simp only [proposal.encode, hn, hc]

/-- Two proposals that differ in source, resource id and method only. -/
theorem proposal_encode_nonce_call_witness :
    (⟨7, ⟨⟨5, 0⟩, [1, 2]⟩, 3, rid 1, "Example.transfer"⟩ : proposal).encode
      = (⟨7, ⟨⟨5, 0⟩, [1, 2]⟩, 9, rid 2, "Example.remark"⟩ : proposal).encode :=
  (proposal_encode_nonce_call ⟨7, ⟨⟨5, 0⟩, [1, 2]⟩, 3, rid 1, "Example.transfer"⟩
    ⟨7, ⟨⟨5, 0⟩, [1, 2]⟩, 9, rid 2, "Example.remark"⟩).2 rfl rfl

/-- C20: the call of a proposal built by any of the three builders has the
call index the call encoder returned, and the encoder's argument bytes at its
start; with `extendCall` false it is exactly the encoder's call, nothing
appended. -/
theorem call_unextended (T : types) (w : writer) (m : Message) :
    (∀ p, createFungibleProposal T w m = .ok p →
      ∃ b0 b1 call, m.Payload[0]? = some (.bytes b0) ∧ m.Payload[1]? = some (.bytes b1) ∧
        T.NewCall w.getMetadata p.method [.AccountID (NewAccountID b1), .U128 (SetBytes b0)]
          = .ok call ∧
        p.call.callIndex = call.callIndex ∧ call.Args <+: p.call.Args ∧
        (w.extendCall = false → p.call = call)) ∧
    (∀ p, createNonFungibleProposal T w m = .ok p →
      ∃ b0 b1 b2 call, m.Payload[0]? = some (.bytes b0) ∧ m.Payload[1]? = some (.bytes b1) ∧
        m.Payload[2]? = some (.bytes b2) ∧
        T.NewCall w.getMetadata p.method
          [.AccountID (NewAccountID b1), .U256 (SetBytes b0), .Bytes b2] = .ok call ∧
        p.call.callIndex = call.callIndex ∧ call.Args <+: p.call.Args ∧
        (w.extendCall = false → p.call = call)) ∧
    (∀ p, createGenericProposal T w m = .ok p →
      ∃ b0 call, m.Payload[0]? = some (.bytes b0) ∧
        T.NewCall w.getMetadata p.method [.Hash (NewHash b0)] = .ok call ∧
        p.call.callIndex = call.callIndex ∧ call.Args <+: p.call.Args ∧
        (w.extendCall = false → p.call = call)) := by
  refine ⟨?_, ?_, ?_⟩
  · intro p h
    obtain ⟨b0, b1, method, h0, h1, hr⟩ := createFungibleProposal_inv h
    rw [createFungibleProposal_eq T w m h0 h1 hr] at h
    obtain ⟨call, hc, hp⟩ := tail_ok T w m method _ p h
    rcases hp with ⟨-, rfl⟩ | ⟨hx, eRID, -, rfl⟩
    · exact ⟨b0, b1, call, h0, h1, hc, rfl, List.prefix_refl _, fun _ => rfl⟩
    · exact ⟨b0, b1, call, h0, h1, hc, rfl, List.prefix_append _ _,
        fun hf => by rw [hx] at hf; cases hf⟩
  · intro p h
    obtain ⟨b0, b1, b2, method, h0, h1, h2, hr⟩ := createNonFungibleProposal_inv h
    rw [createNonFungibleProposal_eq T w m h0 h1 h2 hr] at h
    obtain ⟨call, hc, hp⟩ := tail_ok T w m method _ p h
    rcases hp with ⟨-, rfl⟩ | ⟨hx, eRID, -, rfl⟩
    · exact ⟨b0, b1, b2, call, h0, h1, h2, hc, rfl, List.prefix_refl _, fun _ => rfl⟩
    · exact ⟨b0, b1, b2, call, h0, h1, h2, hc, rfl, List.prefix_append _ _,
        fun hf => by rw [hx] at hf; cases hf⟩
  · intro p h
    obtain ⟨b0, method, h0, hr⟩ := createGenericProposal_inv h
    rw [createGenericProposal_eq T w m h0 hr] at h
    obtain ⟨call, hc, hp⟩ := tail_ok T w m method _ p h
    rcases hp with ⟨-, rfl⟩ | ⟨hx, eRID, -, rfl⟩
    · exact ⟨b0, call, h0, hc, rfl, List.prefix_refl _, fun _ => rfl⟩
    · exact ⟨b0, call, h0, hc, rfl, List.prefix_append _ _,
        fun hf => by rw [hx] at hf; cases hf⟩

/-- The sample generic message without `extendCall`: the proposal's call is the
call the library's encoder returns, the 32 hash bytes and nothing more. -/
theorem call_unextended_witness :
    ∃ p, createGenericProposal scaleTypes (w0 false) msgGeneric = .ok p ∧
      p.call = ⟨⟨5, 0⟩, List.replicate 32 4⟩ := by
  have hG : ∃ p, createGenericProposal scaleTypes (w0 false) msgGeneric = .ok p := ⟨_, rfl⟩
  obtain ⟨p, hp⟩ := hG
  obtain ⟨b0, call, h0, hc, -, -, hx⟩ :=
    (call_unextended scaleTypes (w0 false) msgGeneric).2.2 p hp
  refine ⟨p, hp, ?_⟩
  rw [hx rfl]
  cases h0
  have hm : p.method = "Example.transfer" := by
    obtain ⟨-, method, -, hr⟩ := createGenericProposal_inv hp
    rw [createGenericProposal_eq scaleTypes (w0 false) msgGeneric rfl hr] at hp
    obtain ⟨c, -, hq⟩ := tail_ok scaleTypes (w0 false) msgGeneric method _ p hp
    cases hr
    rcases hq with ⟨-, rfl⟩ | ⟨hf, -⟩
    · rfl
    · cases hf
  rw [hm] at hc
  cases hc
  rfl

end Substrate
